import Mathlib

/-!
Verification development for the Rook orchestrator's recoverable structured
invocation pipeline.

The Python sources are shallowly embedded here:

* `rook_orchestrator/utils/key_loader.py` — `mask_key`
* `rook_orchestrator/utils/llm_client.py` — `_mask_key`, `_stub_response`,
  `APIKeyRotation`, `_is_quota_error`, `call_llm`, `extract_json_from_text`,
  `call_llm_structured`
* `rook_orchestrator/agents/strategy_agent.py` — `_strip_code_fence`,
  `_extract_json`, `_map_action`
* `rook_orchestrator/tools/analytics_api.py` — `AnalyticsAPI.adjust_budget`
* `rook_orchestrator/tools/task_api.py` — `TaskAPI.reassign`

Modelling conventions:

* JSON-shaped Python values are the inductive `JValue`; Python dicts are
  association lists with unique keys in insertion order, read by `dictGet`
  (first binding) and written by `dictSet` (update in place, else append),
  matching CPython dict semantics.
* Python floats are represented as rationals (`ℚ`).  IEEE rounding plays no
  role in any claim below; `round(x, 2)` is modelled as round-half-to-even
  on rationals, as CPython's `round` rounds half to even.
* The language-model backend is an oracle `ℕ → String → Except String String`
  mapping (attempt number, api key) to either the response text or the
  message of the exception raised by the single-attempt invoker.  The
  transcript payload (`raw`) is opaque to every claim and is normalised to
  its text by `get_text_from_sdk_resp`; the model therefore carries the text
  only.
* `time.sleep` backoffs and logging are invisible to every claim and are not
  modelled; both error branches of the retry loop rotate and continue, as in
  the source.
-/

/-- A JSON-shaped Python value: `None`, `bool`, numbers (int and float are
both `num`; no claim distinguishes them), `str`, `list`, `dict`. -/
inductive JValue where
  | null
  | bool (b : Bool)
  | num (q : ℚ)
  | str (s : String)
  | arr (xs : List JValue)
  | obj (kvs : List (String × JValue))
deriving Repr, Inhabited

/-- `d.get(k)`: the value of the first (only) binding of `k`, if any. -/
def dictGet {α : Type} (d : List (String × α)) (k : String) : Option α :=
  match d with
  | [] => none
  | (k', v') :: rest => if k' = k then some v' else dictGet rest k

/-- `d[k] = v`: update the binding in place if `k` is present (CPython keeps
its position), otherwise append it. -/
def dictSet {α : Type} (d : List (String × α)) (k : String) (v : α) : List (String × α) :=
  match d with
  | [] => [(k, v)]
  | (k', v') :: rest => if k' = k then (k, v) :: rest else (k', v') :: dictSet rest k v

/-- `d.pop(k)`: remove the binding of `k` (no-op when absent). -/
def dictPop {α : Type} (d : List (String × α)) (k : String) : List (String × α) :=
  match d with
  | [] => []
  | (k', v') :: rest => if k' = k then rest else (k', v') :: dictPop rest k

/-- `k in d` as a Bool. -/
def dictHas {α : Type} (d : List (String × α)) (k : String) : Bool :=
  (dictGet d k).isSome

/-- Does the character list start with the pattern? -/
def seqStartsWith : List Char → List Char → Bool
  | _, [] => true
  | [], _ :: _ => false
  | c :: s, p :: ps => c = p && seqStartsWith s ps

/-- Python's `pat in s` substring test, on character lists. -/
def seqContains (s pat : List Char) : Bool :=
  match s with
  | [] => seqStartsWith [] pat
  | _ :: rest => seqStartsWith s pat || seqContains rest pat

/-- Python's `pat in s` substring test on strings. -/
def strContains (s pat : String) : Bool := seqContains s.data pat.data

/-- Lower-case a string the way `str.lower()` does on ASCII text. -/
def strLower (s : String) : String := String.mk (s.data.map Char.toLower)

/-- Python `s[-n:]`: the last `n` characters (the whole string when shorter). -/
def strTakeLast (n : ℕ) (s : String) : String :=
  String.mk (s.data.drop (s.data.length - n))

/-- Python `s[:n]`: the first `n` characters. -/
def strTake (n : ℕ) (s : String) : String := String.mk (s.data.take n)

/-- Python truthiness of a JSON-shaped value: `None`, `False`, `0`, `""`,
`[]` and `\x7b\x7d` are falsy, everything else truthy. -/
def jTruthy : JValue → Bool
  | .null => false
  | .bool b => b
  | .num q => q ≠ 0
  | .str s => s ≠ ""
  | .arr xs => !xs.isEmpty
  | .obj kvs => !kvs.isEmpty

/-- The digit character for `n < 10`. -/
def natDigitChar (n : ℕ) : Char := Char.ofNat (48 + n)

/-- Decimal expansion digits of the proper fraction `num/den` (fuelled; every
number appearing in this development terminates well within the fuel). -/
def fracDigits : ℕ → ℕ → ℕ → List Char
  | 0, _, _ => []
  | fuel + 1, num, den =>
    if num = 0 then []
    else natDigitChar (num * 10 / den) :: fracDigits fuel (num * 10 % den) den

/-- Python's textual form of a JSON-parsed number: integers print without a
decimal point, floats with one.  (A float of integral value such as `1.0`
prints as `1` here; no value in this development hits that case.) -/
def pyNumRepr (q : ℚ) : String :=
  let sign := if q < 0 then "-" else ""
  let n := q.num.natAbs
  let d := q.den
  if d = 1 then sign ++ toString (n / d)
  else sign ++ toString (n / d) ++ "." ++ String.mk (fracDigits 40 (n % d) d)

/-- JSON string escaping as `json.dumps` performs it (the characters used in
this development need only quote, backslash and ASCII control escapes). -/
def jsonEscapeChar (c : Char) : List Char :=
  if c = '"' then ['\\', '"']
  else if c = '\\' then ['\\', '\\']
  else if c = '\n' then ['\\', 'n']
  else if c = '\r' then ['\\', 'r']
  else if c = '\t' then ['\\', 't']
  else [c]

/-- Escape a whole string for `json.dumps`. -/
def jsonEscapeStr (s : String) : String := String.mk (s.data.flatMap jsonEscapeChar)

mutual

/-- `json.dumps` with the default separators `", "` and `": "`. -/
def jsonDumps : JValue → String
  | .null => "null"
  | .bool true => "true"
  | .bool false => "false"
  | .num q => pyNumRepr q
  | .str s => "\"" ++ jsonEscapeStr s ++ "\""
  | .arr xs => "[" ++ jsonDumpsArr xs ++ "]"
  | .obj kvs => "\x7b" ++ jsonDumpsObj kvs ++ "\x7d"

/-- Comma-joined dumps of array elements. -/
def jsonDumpsArr : List JValue → String
  | [] => ""
  | [x] => jsonDumps x
  | x :: y :: xs => jsonDumps x ++ ", " ++ jsonDumpsArr (y :: xs)

/-- Comma-joined dumps of object members. -/
def jsonDumpsObj : List (String × JValue) → String
  | [] => ""
  | [(k, v)] => "\"" ++ jsonEscapeStr k ++ "\": " ++ jsonDumps v
  | (k, v) :: m :: kvs => "\"" ++ jsonEscapeStr k ++ "\": " ++ jsonDumps v ++ ", " ++ jsonDumpsObj (m :: kvs)

end

/-- `key_loader.mask_key`: `"EMPTY"` for the empty string, `"..." + key` for
keys of length at most 8, `"..." + key[-6:]` otherwise. -/
def mask_key (key : String) : String :=
  if key = "" then "EMPTY"
  else if key.length ≤ 8 then "..." ++ key
  else "..." ++ strTakeLast 6 key

/-- `llm_client._mask_key`: identical branches to `key_loader.mask_key`
(source writes the `> 8` test first). -/
def _mask_key (key : String) : String :=
  if key = "" then "EMPTY"
  else if key.length > 8 then "..." ++ strTakeLast 6 key
  else "..." ++ key

/-- `llm_client.APIKeyRotation`: the credential pool — an ordered key list
and a cursor.  The constructor raises on an empty list, so every pool in
scope has a non-empty `keys`; the starting index is `random.randrange(len)`,
modelled by quantifying over every in-range cursor. -/
structure APIKeyRotation where
  keys : List String
  index : ℕ
deriving Repr, DecidableEq

/-- `APIKeyRotation.current`: the key under the cursor. -/
def APIKeyRotation.current (p : APIKeyRotation) : String := p.keys.getD p.index ""

/-- `APIKeyRotation.rotate`: advance the cursor circularly. -/
def APIKeyRotation.rotate (p : APIKeyRotation) : APIKeyRotation :=
  ⟨p.keys, (p.index + 1) % p.keys.length⟩

/-- `APIKeyRotation.mark_dead`: the source simply rotates away. -/
def APIKeyRotation.mark_dead (p : APIKeyRotation) : APIKeyRotation := p.rotate

/-- `rotate()` applied `n` times. -/
def rotateN (p : APIKeyRotation) : ℕ → APIKeyRotation
  | 0 => p
  | n + 1 => rotateN p.rotate n

/-- The canned plan `_stub_response` selects by keyword matching on the
prompt, as a list of action dicts. -/
def stubPlan (prompt : String) : List (List (String × JValue)) :=
  if strContains prompt "high_cpa" || strContains prompt "CPA" ||
      strContains prompt "cost increase" then
    [ [ ("action_type", .str "adjust_budget"), ("campaign_id", .str "leadgen_nov"),
        ("adjustment", .num (-(2/10))), ("reason", .str "Reduce spend to control CPA"),
        ("confidence", .num (7/10)) ],
      [ ("action_type", .str "create_task"),
        ("task", .str "Investigate creatives for leadgen_nov"),
        ("assignee", .str "marketing_lead"), ("reason", .str "Possible creative fatigue"),
        ("confidence", .num (5/10)) ] ]
  else if strContains prompt "overload" || strContains prompt "overloaded" ||
      strContains prompt "dev_overload" then
    [ [ ("action_type", .str "reassign_task"), ("task_id", .str "t123"),
        ("from", .str "dev_ajay"), ("to", .str "dev_sana"),
        ("reason", .str "Balance load"), ("confidence", .num (8/10)) ],
      [ ("action_type", .str "draft_email"), ("to", .str "client@example.com"),
        ("subject", .str "Timeline update"),
        ("body", .str "We recommend a 3-day extension to ensure quality."),
        ("confidence", .num (6/10)) ] ]
  else
    [ [ ("action_type", .str "create_task"),
        ("task", .str "Review campaign performance"),
        ("assignee", .str "marketing_lead"), ("reason", .str "Periodic check"),
        ("confidence", .num (4/10)) ] ]

/-- An invocation result: the response text plus the metadata dict.  The
opaque `raw` transcript is normalised to text by `get_text_from_sdk_resp`
and is not carried separately. -/
structure LLMResult where
  text : String
  meta : List (String × JValue)
deriving Repr

/-- `llm_client._stub_response`: the deterministic keyword-keyed fallback. -/
def _stub_response (prompt : String) : LLMResult :=
  { text := jsonDumps (.obj [("plan", .arr ((stubPlan prompt).map JValue.obj))]),
    meta := [("source", .str "stub")] }

/-- `llm_client._is_quota_error`: keyword classification of an exception
message.  (`raw_status` is always `None` in the source — the `isinstance(e,
tuple)` probe can never fire on an exception — so only the message test
remains.) -/
def _is_quota_error (emsg : String) : Bool :=
  let m := strLower emsg
  strContains m "quota" || strContains m "rate limit" || strContains m "429" ||
    strContains m "quotaexceeded"

/-- Execution trace of one `call_llm` call: the returned result, the final
pool state, and instrumentation counters (number of `rotate` calls performed
and 1-based index of the attempt that succeeded, 0 when none did). -/
structure CallTrace where
  result : LLMResult
  rotation : Option APIKeyRotation
  rotations : ℕ
  attemptsUsed : ℕ
deriving Repr

/-- The fallback branch after the retry loop exhausts: the stub response
with `meta.source` overwritten to `"stub-fallback"` and `meta.error` set to
the string of the last exception. -/
def stubFallback (prompt : String) (lastErr : String) : LLMResult :=
  let stub := _stub_response prompt
  { stub with meta := (dictSet (dictSet stub.meta "source" (.str "stub-fallback"))
      "error" (.str lastErr)) }

/-- The key the loop picks for an attempt: the pool's current key
(`rotation.current()`), or the single configured key (or `""`) when no pool
exists. -/
def attemptKey (rot : Option APIKeyRotation) (singleKey : Option String) : String :=
  match rot with
  | some r => r.current
  | none => singleKey.getD ""

/-- The retry loop of `call_llm`, recursing on the remaining attempts.
`backend a k` is the outcome of the single-attempt invoker at attempt `a`
under key `k`.  Both the quota branch (`mark_dead`) and the generic branch
(`rotate`) rotate the pool before continuing, as in the source. -/
def call_llm_go (backend : ℕ → String → Except String String) (model prompt : String)
    (singleKey : Option String) :
    ℕ → ℕ → Option APIKeyRotation → ℕ → Option String → CallTrace
  | 0, _attempt, rot, rotCount, lastErr =>
    { result := stubFallback prompt (lastErr.getD "None"),
      rotation := rot, rotations := rotCount, attemptsUsed := 0 }
  | remaining + 1, attempt, rot, rotCount, _lastErr =>
    let key := attemptKey rot singleKey
    match backend attempt key with
    | .ok t =>
      { result := { text := t,
                    meta := [("model", .str model), ("source", .str "gemini"),
                             ("api_key_masked", .str (_mask_key key))] },
        rotation := rot, rotations := rotCount, attemptsUsed := attempt }
    | .error e =>
      let rot' := if _is_quota_error e then rot.map APIKeyRotation.mark_dead
                  else rot.map APIKeyRotation.rotate
      call_llm_go backend model prompt singleKey remaining (attempt + 1) rot'
        (rotCount + (if rot.isSome then 1 else 0)) (some e)

/-- The initial pool `APIKeyRotation(keys)` when keys exist; `startIndex`
stands for the constructor's random starting cursor. -/
def initRot (keys : List String) (startIndex : ℕ) : Option APIKeyRotation :=
  if keys.isEmpty then none else some ⟨keys, startIndex % keys.length⟩

/-- `llm_client.call_llm`.  Parameters mirror the module configuration:
`keys` is the parsed `MULTI_GEMINI_KEYS` list, `useSdk` the SDK
availability flag, `singleKey` the `GEMINI_API_KEY` fallback used when the
list is empty, `maxRetries` the `LLM_MAX_RETRIES` setting and `startIndex`
the constructor's random cursor.  With no keys and no SDK it returns the
stub immediately; otherwise it runs the retry loop for
`max 1 maxRetries` attempts. -/
def call_llm (prompt model : String) (keys : List String) (useSdk : Bool)
    (singleKey : Option String) (startIndex maxRetries : ℕ)
    (backend : ℕ → String → Except String String) : CallTrace :=
  if keys.isEmpty && !useSdk then
    let stub := _stub_response prompt
    { result := { stub with meta := dictSet stub.meta "source" (.str "stub") },
      rotation := none, rotations := 0, attemptsUsed := 0 }
  else
    call_llm_go backend model prompt singleKey (max 1 maxRetries) 1
      (initRot keys startIndex) 0 none


/-- `n` rotations of an optional pool. -/
def optRotN (rot : Option APIKeyRotation) : ℕ → Option APIKeyRotation
  | 0 => rot
  | n + 1 => optRotN (rot.map APIKeyRotation.rotate) n

theorem rotateN_keys (p : APIKeyRotation) (n : ℕ) : (rotateN p n).keys = p.keys := by
  induction n generalizing p with
  | zero => rfl
  | succ n ih => simpa [rotateN, APIKeyRotation.rotate] using ih p.rotate

theorem rotateN_index (p : APIKeyRotation) (n : ℕ) (h : p.index < p.keys.length) :
    (rotateN p n).index = (p.index + n) % p.keys.length := by
  induction n generalizing p with
  | zero =>
    simpa [rotateN] using (Nat.mod_eq_of_lt h).symm
  | succ n ih =>
    have hL : 0 < p.keys.length := Nat.lt_of_le_of_lt (Nat.zero_le _) h
    have hlt : p.rotate.index < p.rotate.keys.length := by
      simpa [APIKeyRotation.rotate] using Nat.mod_lt _ hL
    have := ih p.rotate hlt
    simp only [rotateN, APIKeyRotation.rotate] at this ⊢
    rw [this]
    rw [Nat.mod_add_mod]
    congr 1
    omega

/-- C7: for every non-empty credential list and every in-range cursor,
calling `rotate()` exactly `len(pool)` times returns the pool to its
original `current()` credential. -/
theorem rotate_full_cycle (keys : List String) (i : ℕ) (hk : keys ≠ []) (hi : i < keys.length) :
    (rotateN ⟨keys, i⟩ keys.length).current = (⟨keys, i⟩ : APIKeyRotation).current := by
  have hL : 0 < keys.length := List.length_pos.mpr hk
  have hidx := rotateN_index ⟨keys, i⟩ keys.length hi
  have hkeys := rotateN_keys ⟨keys, i⟩ keys.length
  simp only [APIKeyRotation.current, hkeys]
  rw [hidx, Nat.add_mod_right, Nat.mod_eq_of_lt hi]

/-- Witness for C7 at a concrete three-key pool with cursor 1. -/
theorem rotate_full_cycle_witness :
    (rotateN ⟨["ka", "kb", "kc"], 1⟩ (["ka", "kb", "kc"] : List String).length).current =
      (⟨["ka", "kb", "kc"], 1⟩ : APIKeyRotation).current :=
  rotate_full_cycle ["ka", "kb", "kc"] 1 (by decide) (by decide)

/-- C8 counterexample: an 8-character key is echoed whole after the `"..."`
marker by both masking functions, so more than the last 6 characters of the
raw value are revealed. -/
theorem mask_key_reveals_more_than_last6 :
    mask_key "abcdefgh" = "...abcdefgh" ∧ _mask_key "abcdefgh" = "...abcdefgh" ∧
      mask_key "abcdefgh" ≠ "..." ++ strTakeLast 6 "abcdefgh" ∧
      _mask_key "abcdefgh" ≠ "..." ++ strTakeLast 6 "abcdefgh" := by
  refine ⟨rfl, rfl, ?_, ?_⟩ <;> decide

/-- C8 amended: both masking functions reveal only the last 6 characters for
keys longer than 8 characters; non-empty keys of length at most 8 are shown
whole after the `"..."` marker, and the empty key displays as `"EMPTY"`. -/
theorem mask_key_amended (k : String) :
    (8 < k.length → mask_key k = "..." ++ strTakeLast 6 k ∧ _mask_key k = "..." ++ strTakeLast 6 k) ∧
    (k ≠ "" → k.length ≤ 8 → mask_key k = "..." ++ k ∧ _mask_key k = "..." ++ k) ∧
    mask_key "" = "EMPTY" ∧ _mask_key "" = "EMPTY" := by
  refine ⟨fun h => ?_, fun hne hle => ?_, rfl, rfl⟩
  · have hne : k ≠ "" := by
      intro h0
      rw [h0] at h
      exact absurd h (by decide)
    rw [mask_key, _mask_key, if_neg hne, if_neg hne, if_neg (not_le.mpr h), if_pos h]
    exact ⟨rfl, rfl⟩
  · rw [mask_key, _mask_key, if_neg hne, if_neg hne, if_pos hle, if_neg (not_lt.mpr hle)]
    exact ⟨rfl, rfl⟩

/-- Witness for the amended C8 at a long and a short key. -/
theorem mask_key_amended_witness :
    mask_key "abcdefghij" = "..." ++ strTakeLast 6 "abcdefghij" ∧ mask_key "abc" = "..." ++ "abc" :=
  ⟨((mask_key_amended "abcdefghij").1 (by decide)).1,
   ((mask_key_amended "abc").2.1 (by decide) (by decide)).1⟩

theorem isEmpty_false_of_ne_nil {α : Type} {l : List α} (h : l ≠ []) : l.isEmpty = false := by
  cases l with
  | nil => exact absurd rfl h
  | cons a t => rfl

theorem mark_dead_eq_rotate : APIKeyRotation.mark_dead = APIKeyRotation.rotate := rfl

theorem call_llm_go_allfail
    (backend : ℕ → String → Except String String) (efn : ℕ → String → String)
    (hE : ∀ a k, backend a k = .error (efn a k))
    (model prompt : String) (singleKey : Option String) :
    ∀ (r a : ℕ) (rot : Option APIKeyRotation) (rc : ℕ) (le : Option String),
      call_llm_go backend model prompt singleKey (r + 1) a rot rc le =
        { result := stubFallback prompt (efn (a + r) (attemptKey (optRotN rot r) singleKey)),
          rotation := optRotN rot (r + 1),
          rotations := rc + (if rot.isSome then r + 1 else 0),
          attemptsUsed := 0 } := by
  intro r
  induction r with
  | zero =>
    intro a rot rc le
    conv_lhs => rw [call_llm_go.eq_def]
    simp only [hE, mark_dead_eq_rotate, ite_self]
    cases rot <;> simp [call_llm_go, optRotN, attemptKey]
  | succ r ih =>
    intro a rot rc le
    conv_lhs => rw [call_llm_go.eq_def]
    simp only [hE, mark_dead_eq_rotate, ite_self]
    rw [ih]
    have h1 : a + 1 + r = a + (r + 1) := by omega
    rw [h1]
    simp only [CallTrace.mk.injEq, optRotN, true_and, and_true]
    cases rot <;> simp <;> omega

theorem stubFallback_meta (prompt err : String) :
    (stubFallback prompt err).meta =
      [("source", .str "stub-fallback"), ("error", .str err)] := rfl

theorem stubFallback_text (prompt err : String) :
    (stubFallback prompt err).text = (_stub_response prompt).text := rfl

theorem call_llm_go_step_error
    {backend : ℕ → String → Except String String} {model prompt : String}
    {singleKey : Option String} {rem a rc : ℕ} {rot : Option APIKeyRotation}
    {le : Option String} {e : String}
    (hb : backend a (attemptKey rot singleKey) = .error e) :
    call_llm_go backend model prompt singleKey (rem + 1) a rot rc le =
      call_llm_go backend model prompt singleKey rem (a + 1)
        (rot.map APIKeyRotation.rotate) (rc + (if rot.isSome then 1 else 0)) (some e) := by
  conv_lhs => rw [call_llm_go.eq_def]
  simp only [hb, mark_dead_eq_rotate, ite_self]

theorem call_llm_go_step_ok
    {backend : ℕ → String → Except String String} {model prompt : String}
    {singleKey : Option String} {rem a rc : ℕ} {rot : Option APIKeyRotation}
    {le : Option String} {t : String}
    (hb : backend a (attemptKey rot singleKey) = .ok t) :
    call_llm_go backend model prompt singleKey (rem + 1) a rot rc le =
      { result := { text := t,
                    meta := [("model", .str model), ("source", .str "gemini"),
                             ("api_key_masked", .str (_mask_key (attemptKey rot singleKey)))] },
        rotation := rot, rotations := rc, attemptsUsed := a } := by
  conv_lhs => rw [call_llm_go.eq_def]
  simp only [hb]

/-- C2: with a configured credential pool, `call_llm` never propagates an
exception — when every one of the `max 1 LLM_MAX_RETRIES` attempts fails,
it returns the deterministic keyword-keyed stub response with
`meta["source"] = "stub-fallback"` (the code's fallback-after-error marker)
and the error message of the final attempt recorded in `meta["error"]`. -/
theorem call_llm_allfail_fallback
    (prompt model : String) (keys : List String) (useSdk : Bool)
    (singleKey : Option String) (idx0 maxR : ℕ)
    (backend : ℕ → String → Except String String) (efn : ℕ → String → String)
    (hkeys : keys ≠ [])
    (hE : ∀ a k, backend a k = .error (efn a k)) :
    (call_llm prompt model keys useSdk singleKey idx0 maxR backend).result.text =
      (_stub_response prompt).text ∧
    dictGet (call_llm prompt model keys useSdk singleKey idx0 maxR backend).result.meta
      "source" = some (.str "stub-fallback") ∧
    dictGet (call_llm prompt model keys useSdk singleKey idx0 maxR backend).result.meta
      "error" = some (.str (efn (max 1 maxR)
        (attemptKey (optRotN (initRot keys idx0) (max 1 maxR - 1)) singleKey))) := by
  have hie : keys.isEmpty = false := isEmpty_false_of_ne_nil hkeys
  obtain ⟨m, hm⟩ : ∃ m, max 1 maxR = m + 1 := ⟨max 1 maxR - 1, by omega⟩
  simp only [call_llm, hie, Bool.false_and, Bool.false_eq_true, if_false, hm,
    Nat.add_sub_cancel]
  rw [call_llm_go_allfail backend efn hE model prompt singleKey m 1 (initRot keys idx0) 0 none]
  have h1m : 1 + m = m + 1 := by omega
  rw [stubFallback_text, stubFallback_meta, h1m]
  exact ⟨rfl, rfl, rfl⟩

/-- Witness for C2: two keys, every attempt failing with a distinct error;
the fallback carries the source marker and attempt 4's error. -/
theorem call_llm_allfail_fallback_witness :
    (call_llm "p" "m" ["k1", "k2"] false none 0 4
        (fun a _ => .error ("boom " ++ toString a))).result.text =
      (_stub_response "p").text ∧
    dictGet (call_llm "p" "m" ["k1", "k2"] false none 0 4
        (fun a _ => .error ("boom " ++ toString a))).result.meta "source" =
      some (.str "stub-fallback") ∧
    dictGet (call_llm "p" "m" ["k1", "k2"] false none 0 4
        (fun a _ => .error ("boom " ++ toString a))).result.meta "error" =
      some (.str ("boom " ++ toString (max 1 4))) :=
  call_llm_allfail_fallback "p" "m" ["k1", "k2"] false none 0 4
    (fun a _ => .error ("boom " ++ toString a)) (fun a _ => "boom " ++ toString a)
    (by decide) (fun _ _ => rfl)

/-- C5 counterexample: a concrete run whose backend raises a quota error on
attempts 1–3 and succeeds on attempt 4.  The call does return attempt 4's
text after exactly 3 rotations, but the returned metadata dict has no
`"attempts_used"` key at all — its keys are exactly `model`, `source` and
`api_key_masked` — so the metadata does not record `attempts_used == 4`. -/
theorem quota_retry_no_attempts_used_cex :
    (call_llm "p" "m" ["alpha", "beta"] false none 0 4
        (fun a _ => if a ≤ 3 then .error "429 quota exceeded" else .ok "OK_RESULT")).result.text
      = "OK_RESULT" ∧
    (call_llm "p" "m" ["alpha", "beta"] false none 0 4
        (fun a _ => if a ≤ 3 then .error "429 quota exceeded" else .ok "OK_RESULT")).rotations
      = 3 ∧
    dictGet (call_llm "p" "m" ["alpha", "beta"] false none 0 4
        (fun a _ => if a ≤ 3 then .error "429 quota exceeded" else .ok "OK_RESULT")).result.meta
      "attempts_used" = none ∧
    dictGet (call_llm "p" "m" ["alpha", "beta"] false none 0 4
        (fun a _ => if a ≤ 3 then .error "429 quota exceeded" else .ok "OK_RESULT")).result.meta
      "attempts_used" ≠ some (.num 4) := by
  refine ⟨rfl, rfl, rfl, ?_⟩
  intro h
  rw [show dictGet (call_llm "p" "m" ["alpha", "beta"] false none 0 4
      (fun a _ => if a ≤ 3 then .error "429 quota exceeded" else .ok "OK_RESULT")).result.meta
      "attempts_used" = none from rfl] at h
  exact Option.noConfusion h

/-- C5 amended: when the backend raises a quota error on the first 3
attempts and succeeds on the 4th, `call_llm` (with `LLM_MAX_RETRIES = 4`)
returns the attempt-4 result — metadata carrying exactly the model name, the
source marker `gemini` and the masked key, with no `attempts_used` field —
after exactly 3 pool rotations; the trace confirms attempt 4 was the one
that succeeded. -/
theorem quota_retry_success
    (prompt model : String) (keys : List String) (useSdk : Bool)
    (singleKey : Option String) (idx0 : ℕ)
    (backend : ℕ → String → Except String String) (e1 e2 e3 t : String)
    (hkeys : keys ≠ [])
    (h1 : ∀ k, backend 1 k = .error e1) (hq1 : _is_quota_error e1 = true)
    (h2 : ∀ k, backend 2 k = .error e2) (hq2 : _is_quota_error e2 = true)
    (h3 : ∀ k, backend 3 k = .error e3) (hq3 : _is_quota_error e3 = true)
    (h4 : ∀ k, backend 4 k = .ok t) :
    (call_llm prompt model keys useSdk singleKey idx0 4 backend).result.text = t ∧
    (call_llm prompt model keys useSdk singleKey idx0 4 backend).result.meta =
      [("model", .str model), ("source", .str "gemini"),
       ("api_key_masked",
        .str (_mask_key (rotateN ⟨keys, idx0 % keys.length⟩ 3).current))] ∧
    dictGet (call_llm prompt model keys useSdk singleKey idx0 4 backend).result.meta
      "attempts_used" = none ∧
    (call_llm prompt model keys useSdk singleKey idx0 4 backend).attemptsUsed = 4 ∧
    (call_llm prompt model keys useSdk singleKey idx0 4 backend).rotations = 3 ∧
    (call_llm prompt model keys useSdk singleKey idx0 4 backend).rotation =
      some (rotateN ⟨keys, idx0 % keys.length⟩ 3) := by
  have hie : keys.isEmpty = false := isEmpty_false_of_ne_nil hkeys
  have hinit : initRot keys idx0 = some ⟨keys, idx0 % keys.length⟩ := by
    simp [initRot, hie]
  simp only [call_llm, hie, Bool.false_and, Bool.false_eq_true, if_false, hinit]
  rw [show (max 1 4 : ℕ) = 3 + 1 from rfl,
    call_llm_go_step_error (h1 _),
    show (3 : ℕ) = 2 + 1 from rfl,
    call_llm_go_step_error (h2 _),
    show (2 : ℕ) = 1 + 1 from rfl,
    call_llm_go_step_error (h3 _),
    show (1 : ℕ) = 0 + 1 from rfl,
    call_llm_go_step_ok (h4 _)]
  simp [Option.map_some', Option.isSome_some, rotateN,
    APIKeyRotation.mark_dead, attemptKey, dictGet]

/-- Witness for the amended C5 at a concrete two-key pool and quota-worded
errors. -/
theorem quota_retry_success_witness :
    (call_llm "p" "m" ["alpha", "beta"] false none 0 4
        (fun a _ => if a ≤ 3 then .error "429 quota exceeded" else .ok "OK_RESULT")).result.text
      = "OK_RESULT" ∧
    (call_llm "p" "m" ["alpha", "beta"] false none 0 4
        (fun a _ => if a ≤ 3 then .error "429 quota exceeded" else .ok "OK_RESULT")).result.meta
      = [("model", .str "m"), ("source", .str "gemini"),
         ("api_key_masked",
          .str (_mask_key (rotateN ⟨["alpha", "beta"], 0 % (["alpha", "beta"] : List String).length⟩ 3).current))] ∧
    dictGet (call_llm "p" "m" ["alpha", "beta"] false none 0 4
        (fun a _ => if a ≤ 3 then .error "429 quota exceeded" else .ok "OK_RESULT")).result.meta
      "attempts_used" = none ∧
    (call_llm "p" "m" ["alpha", "beta"] false none 0 4
        (fun a _ => if a ≤ 3 then .error "429 quota exceeded" else .ok "OK_RESULT")).attemptsUsed
      = 4 ∧
    (call_llm "p" "m" ["alpha", "beta"] false none 0 4
        (fun a _ => if a ≤ 3 then .error "429 quota exceeded" else .ok "OK_RESULT")).rotations
      = 3 ∧
    (call_llm "p" "m" ["alpha", "beta"] false none 0 4
        (fun a _ => if a ≤ 3 then .error "429 quota exceeded" else .ok "OK_RESULT")).rotation
      = some (rotateN ⟨["alpha", "beta"], 0 % (["alpha", "beta"] : List String).length⟩ 3) :=
  quota_retry_success "p" "m" ["alpha", "beta"] false none 0
    (fun a _ => if a ≤ 3 then .error "429 quota exceeded" else .ok "OK_RESULT")
    "429 quota exceeded" "429 quota exceeded" "429 quota exceeded" "OK_RESULT"
    (by decide) (fun _ => rfl) (by decide) (fun _ => rfl) (by decide)
    (fun _ => rfl) (by decide) (fun _ => rfl)

/-- Does an action dict carry `action_type == "adjust_budget"`? -/
def isAdjustBudget (act : List (String × JValue)) : Bool :=
  match dictGet act "action_type" with
  | some (.str t) => t = "adjust_budget"
  | _ => false

/-- C6: for every prompt containing `"high_cpa"`, when every backend attempt
fails, `call_llm` returns the fallback plan text, and that plan contains
exactly one `adjust_budget` action, whose `adjustment` is `-0.2`. -/
theorem highcpa_fallback_plan
    (prompt model : String) (keys : List String) (useSdk : Bool)
    (singleKey : Option String) (idx0 maxR : ℕ)
    (backend : ℕ → String → Except String String) (efn : ℕ → String → String)
    (hkeys : keys ≠ [])
    (hE : ∀ a k, backend a k = .error (efn a k))
    (hsub : strContains prompt "high_cpa" = true) :
    (call_llm prompt model keys useSdk singleKey idx0 maxR backend).result.text =
      jsonDumps (.obj [("plan", .arr ((stubPlan prompt).map JValue.obj))]) ∧
    dictGet (call_llm prompt model keys useSdk singleKey idx0 maxR backend).result.meta
      "source" = some (.str "stub-fallback") ∧
    ((stubPlan prompt).filter isAdjustBudget).length = 1 ∧
    ∀ act ∈ (stubPlan prompt).filter isAdjustBudget,
      dictGet act "adjustment" = some (.num (-(2/10))) := by
  have hie : keys.isEmpty = false := isEmpty_false_of_ne_nil hkeys
  obtain ⟨m, hm⟩ : ∃ m, max 1 maxR = m + 1 := ⟨max 1 maxR - 1, by omega⟩
  have hplan :
      stubPlan prompt =
        [ [ ("action_type", .str "adjust_budget"), ("campaign_id", .str "leadgen_nov"),
            ("adjustment", .num (-(2/10))), ("reason", .str "Reduce spend to control CPA"),
            ("confidence", .num (7/10)) ],
          [ ("action_type", .str "create_task"),
            ("task", .str "Investigate creatives for leadgen_nov"),
            ("assignee", .str "marketing_lead"), ("reason", .str "Possible creative fatigue"),
            ("confidence", .num (5/10)) ] ] := by
    rw [stubPlan, if_pos]
    rw [hsub]
    rfl
  refine ⟨?_, ?_, ?_, ?_⟩
  · simp only [call_llm, hie, Bool.false_and, Bool.false_eq_true, if_false, hm]
    rw [call_llm_go_allfail backend efn hE model prompt singleKey m 1 (initRot keys idx0) 0 none]
    rw [stubFallback_text]
    rfl
  · simp only [call_llm, hie, Bool.false_and, Bool.false_eq_true, if_false, hm]
    rw [call_llm_go_allfail backend efn hE model prompt singleKey m 1 (initRot keys idx0) 0 none]
    rw [stubFallback_meta]
    rfl
  · rw [hplan]
    rfl
  · intro act hact
    rw [hplan] at hact
    have hact2 : act ∈
        [[("action_type", JValue.str "adjust_budget"), ("campaign_id", JValue.str "leadgen_nov"),
          ("adjustment", JValue.num (-(2/10))),
          ("reason", JValue.str "Reduce spend to control CPA"),
          ("confidence", JValue.num (7/10))]] := hact
    rw [List.mem_singleton] at hact2
    subst hact2
    rfl

/-- Witness for C6 at a concrete high-CPA scenario prompt with every attempt
failing. -/
theorem highcpa_fallback_plan_witness :
    (call_llm "board shows high_cpa on leadgen_nov" "m" ["k"] false none 0 4
        (fun _ _ => .error "down")).result.text =
      jsonDumps (.obj [("plan",
        .arr ((stubPlan "board shows high_cpa on leadgen_nov").map JValue.obj))]) ∧
    dictGet (call_llm "board shows high_cpa on leadgen_nov" "m" ["k"] false none 0 4
        (fun _ _ => .error "down")).result.meta "source" = some (.str "stub-fallback") ∧
    ((stubPlan "board shows high_cpa on leadgen_nov").filter isAdjustBudget).length = 1 ∧
    ∀ act ∈ (stubPlan "board shows high_cpa on leadgen_nov").filter isAdjustBudget,
      dictGet act "adjustment" = some (.num (-(2/10))) :=
  highcpa_fallback_plan "board shows high_cpa on leadgen_nov" "m" ["k"] false none 0 4
    (fun _ _ => .error "down") (fun _ _ => "down")
    (by decide) (fun _ _ => rfl) (by decide)

theorem dictGet_dictSet_same {α : Type} (d : List (String × α)) (k : String) (v : α) :
    dictGet (dictSet d k v) k = some v := by
  induction d with
  | nil => simp [dictSet, dictGet]
  | cons kv rest ih =>
    obtain ⟨k', v'⟩ := kv
    by_cases h : k' = k
    · simp [dictSet, if_pos h, dictGet]
    · simp only [dictSet, if_neg h]
      simpa [dictGet, h] using ih

theorem dictGet_dictSet_other {α : Type} (d : List (String × α)) (k k2 : String) (v : α)
    (h : k2 ≠ k) :
    dictGet (dictSet d k v) k2 = dictGet d k2 := by
  have hkk2 : ¬(k = k2) := fun e => h e.symm
  induction d with
  | nil => simp [dictSet, dictGet, hkk2]
  | cons kv rest ih =>
    obtain ⟨k', v'⟩ := kv
    by_cases hk : k' = k
    · simp [dictSet, if_pos hk, dictGet, hk, hkk2]
    · by_cases hk2 : k' = k2
      · simp [dictSet, if_neg hk, dictGet, hk2, h]
      · simp only [dictSet, if_neg hk]
        simpa [dictGet, hk2] using ih

/-- Round half to even to an integer, as CPython's `round` does. -/
def roundHalfEven (x : ℚ) : ℤ :=
  let f := ⌊x⌋
  let r := x - f
  if r < 1/2 then f
  else if 1/2 < r then f + 1
  else if f % 2 = 0 then f else f + 1

/-- Python `round(x, 2)`. -/
def round2 (x : ℚ) : ℚ := (roundHalfEven (x * 100) : ℚ) / 100

/-- `analytics_api.AnalyticsAPI`: holds the analytics data dict. -/
structure AnalyticsAPI where
  data : List (String × JValue)

/-- Does `c.get("campaign_id") == campaign_id` hold for a campaign entry? -/
def campMatches (cid : String) (c : JValue) : Bool :=
  match c with
  | .obj cd =>
    match dictGet cd "campaign_id" with
    | some (.str s) => s = cid
    | _ => false
  | _ => false

/-- The `for c in campaigns` scan of `adjust_budget`: find the first
campaign dict whose `campaign_id` equals `cid`, set its `daily_spend` to
`round(old * (1 + adjustment), 2)` and stop; `old` defaults to `0` when the
key is absent.  A non-dict entry reached by the scan raises
(`AttributeError` on `.get`), as does a non-numeric `old`
(`TypeError` in the multiplication); Python `bool` spends are numeric
(`True == 1`, `False == 0`). -/
def adjustScan (cid : String) (adj : ℚ) :
    List JValue → Except String (Option (List JValue × JValue × ℚ))
  | [] => .ok none
  | .obj cd :: rest =>
    if campMatches cid (.obj cd) then
      let old := (dictGet cd "daily_spend").getD (.num 0)
      match old with
      | .num oldq =>
        let newq := round2 (oldq * (1 + adj))
        .ok (some (.obj (dictSet cd "daily_spend" (.num newq)) :: rest, old, newq))
      | .bool b =>
        let oldq : ℚ := if b then 1 else 0
        let newq := round2 (oldq * (1 + adj))
        .ok (some (.obj (dictSet cd "daily_spend" (.num newq)) :: rest, old, newq))
      | _ => .error "TypeError: unsupported operand type for *"
    else
      match adjustScan cid adj rest with
      | .ok none => .ok none
      | .ok (some (rest2, o, n)) => .ok (some (.obj cd :: rest2, o, n))
      | .error e => .error e
  | _ :: _ => .error "AttributeError: no attribute get"

/-- `AnalyticsAPI.adjust_budget`: scan `self.data.get("campaigns", [])`; on
a match, mutate that campaign's `daily_spend` in place and report old/new
spend; otherwise report `campaign_not_found` and leave the data untouched.
An exception (ill-typed data) is `.error`. -/
def AnalyticsAPI.adjust_budget (api : AnalyticsAPI) (campaign_id : String)
    (adjustment : ℚ) : Except String (AnalyticsAPI × JValue) :=
  match dictGet api.data "campaigns" with
  | some (.arr cs) =>
    (match adjustScan campaign_id adjustment cs with
     | .error e => .error e
     | .ok none =>
       .ok (api, .obj [("ok", .bool false), ("reason", .str "campaign_not_found")])
     | .ok (some (cs2, old, newq)) =>
       .ok ({ data := dictSet api.data "campaigns" (.arr cs2) },
            .obj [("ok", .bool true), ("campaign_id", .str campaign_id),
                  ("old_spend", old), ("new_spend", .num newq)]))
  | none =>
    .ok (api, .obj [("ok", .bool false), ("reason", .str "campaign_not_found")])
  | some _ => .error "TypeError: campaigns is not a list"

/-- Is the entry a dict? -/
def isObjVal : JValue → Bool
  | .obj _ => true
  | _ => false

theorem adjustScan_nomatch (cid : String) (adj : ℚ) :
    ∀ cs : List JValue, (∀ c ∈ cs, isObjVal c = true) →
      (∀ c ∈ cs, campMatches cid c = false) →
      adjustScan cid adj cs = .ok none := by
  intro cs
  induction cs with
  | nil => intro _ _; rfl
  | cons c rest ih =>
    intro hobj hno
    cases c with
    | obj cd =>
      have hm : campMatches cid (.obj cd) = false := hno _ (List.mem_cons_self _ _)
      rw [adjustScan, if_neg (by rw [hm]; exact Bool.false_ne_true)]
      rw [ih (fun x hx => hobj x (List.mem_cons_of_mem _ hx))
        (fun x hx => hno x (List.mem_cons_of_mem _ hx))]
    | null => exact absurd (hobj _ (List.mem_cons_self _ _)) (by simp [isObjVal])
    | bool b => exact absurd (hobj _ (List.mem_cons_self _ _)) (by simp [isObjVal])
    | num q => exact absurd (hobj _ (List.mem_cons_self _ _)) (by simp [isObjVal])
    | str s => exact absurd (hobj _ (List.mem_cons_self _ _)) (by simp [isObjVal])
    | arr xs => exact absurd (hobj _ (List.mem_cons_self _ _)) (by simp [isObjVal])

theorem adjustScan_found (cid : String) (adj : ℚ) (cd : List (String × JValue))
    (post : List JValue) (oldq : ℚ)
    (hm : campMatches cid (.obj cd) = true)
    (hold : (dictGet cd "daily_spend").getD (.num 0) = .num oldq) :
    ∀ pre : List JValue, (∀ c ∈ pre, isObjVal c = true) →
      (∀ c ∈ pre, campMatches cid c = false) →
      adjustScan cid adj (pre ++ .obj cd :: post) =
        .ok (some
          (pre ++ .obj (dictSet cd "daily_spend"
              (.num (round2 (oldq * (1 + adj))))) :: post,
           (dictGet cd "daily_spend").getD (.num 0), round2 (oldq * (1 + adj)))) := by
  intro pre
  induction pre with
  | nil =>
    intro _ _
    simp only [List.nil_append, adjustScan, if_pos hm, hold]
  | cons c rest ih =>
    intro hobj hno
    cases c with
    | obj cd0 =>
      have hmf : campMatches cid (.obj cd0) = false := hno _ (List.mem_cons_self _ _)
      simp only [List.cons_append, adjustScan, hmf, Bool.false_eq_true, if_false,
        List.append_eq]
      rw [ih (fun x hx => hobj x (List.mem_cons_of_mem _ hx))
        (fun x hx => hno x (List.mem_cons_of_mem _ hx))]
    | null => exact absurd (hobj _ (List.mem_cons_self _ _)) (by simp [isObjVal])
    | bool b => exact absurd (hobj _ (List.mem_cons_self _ _)) (by simp [isObjVal])
    | num q => exact absurd (hobj _ (List.mem_cons_self _ _)) (by simp [isObjVal])
    | str s => exact absurd (hobj _ (List.mem_cons_self _ _)) (by simp [isObjVal])
    | arr xs => exact absurd (hobj _ (List.mem_cons_self _ _)) (by simp [isObjVal])

/-- C9: `AnalyticsAPI.adjust_budget` is atomic and frame-preserving.  With a
well-typed store (campaign entries are dicts; the matched campaign's
`daily_spend` is numeric, defaulting to `0` when absent): when no campaign
matches (including when the `campaigns` key is absent) it returns
`ok: False, reason: "campaign_not_found"` and the data is unchanged; when a
campaign matches, the first matching campaign's `daily_spend` becomes
`round(old * (1 + adjustment), 2)`, every other key of that campaign, every
other campaign, and every other key of the data dict are unchanged, and the
reported result carries the old and new spend. -/
theorem adjust_budget_atomic_frame :
    (∀ (api : AnalyticsAPI) (cid : String) (adj : ℚ),
       dictGet api.data "campaigns" = none →
       api.adjust_budget cid adj =
         .ok (api, .obj [("ok", .bool false), ("reason", .str "campaign_not_found")])) ∧
    (∀ (api : AnalyticsAPI) (cid : String) (adj : ℚ) (cs : List JValue),
       dictGet api.data "campaigns" = some (.arr cs) →
       (∀ c ∈ cs, isObjVal c = true) →
       (∀ c ∈ cs, campMatches cid c = false) →
       api.adjust_budget cid adj =
         .ok (api, .obj [("ok", .bool false), ("reason", .str "campaign_not_found")])) ∧
    (∀ (api : AnalyticsAPI) (cid : String) (adj : ℚ) (pre post : List JValue)
       (cd : List (String × JValue)) (oldq : ℚ),
       dictGet api.data "campaigns" = some (.arr (pre ++ .obj cd :: post)) →
       (∀ c ∈ pre, isObjVal c = true) →
       (∀ c ∈ pre, campMatches cid c = false) →
       campMatches cid (.obj cd) = true →
       (dictGet cd "daily_spend").getD (.num 0) = .num oldq →
       api.adjust_budget cid adj =
         .ok ({ data := dictSet api.data "campaigns" (.arr (pre ++
                  .obj (dictSet cd "daily_spend"
                    (.num (round2 (oldq * (1 + adj))))) :: post)) },
              .obj [("ok", .bool true), ("campaign_id", .str cid),
                    ("old_spend", (dictGet cd "daily_spend").getD (.num 0)),
                    ("new_spend", .num (round2 (oldq * (1 + adj))))]) ∧
       dictGet (dictSet api.data "campaigns" (.arr (pre ++
           .obj (dictSet cd "daily_spend" (.num (round2 (oldq * (1 + adj))))) :: post)))
         "campaigns" = some (.arr (pre ++
           .obj (dictSet cd "daily_spend" (.num (round2 (oldq * (1 + adj))))) :: post)) ∧
       (∀ k, k ≠ "campaigns" →
         dictGet (dictSet api.data "campaigns" (.arr (pre ++
             .obj (dictSet cd "daily_spend" (.num (round2 (oldq * (1 + adj))))) :: post))) k =
           dictGet api.data k) ∧
       dictGet (dictSet cd "daily_spend" (.num (round2 (oldq * (1 + adj)))))
         "daily_spend" = some (.num (round2 (oldq * (1 + adj)))) ∧
       (∀ k, k ≠ "daily_spend" →
         dictGet (dictSet cd "daily_spend" (.num (round2 (oldq * (1 + adj))))) k =
           dictGet cd k)) := by
  refine ⟨?_, ?_, ?_⟩
  · intro api cid adj hnone
    rw [AnalyticsAPI.adjust_budget, hnone]
  · intro api cid adj cs hcs hobj hno
    simp only [AnalyticsAPI.adjust_budget, hcs, adjustScan_nomatch cid adj cs hobj hno]
  · intro api cid adj pre post cd oldq hcs hobj hno hm hold
    refine ⟨?_, dictGet_dictSet_same _ _ _, fun k hk => dictGet_dictSet_other _ _ _ _ hk,
      dictGet_dictSet_same _ _ _, fun k hk => dictGet_dictSet_other _ _ _ _ hk⟩
    simp only [AnalyticsAPI.adjust_budget, hcs,
      adjustScan_found cid adj cd post oldq hm hold pre hobj hno]

/-- Witness for C9: a two-campaign store; adjusting the second campaign by
−0.2 touches only its `daily_spend`, and a miss leaves the store unchanged. -/
theorem adjust_budget_atomic_frame_witness :
    (AnalyticsAPI.adjust_budget
        ⟨[("campaigns", .arr [.obj [("campaign_id", .str "c1"), ("daily_spend", .num 10)]]),
          ("week", .num 47)]⟩ "zzz" (-(2/10)) =
      .ok (⟨[("campaigns", .arr [.obj [("campaign_id", .str "c1"), ("daily_spend", .num 10)]]),
             ("week", .num 47)]⟩,
           .obj [("ok", .bool false), ("reason", .str "campaign_not_found")])) ∧
    (AnalyticsAPI.adjust_budget
        ⟨[("campaigns", .arr
            [.obj [("campaign_id", .str "c1"), ("daily_spend", .num 10)],
             .obj [("campaign_id", .str "c2"), ("daily_spend", .num 50),
                   ("owner", .str "ana")]]),
          ("week", .num 47)]⟩ "c2" (-(2/10)) =
      .ok (⟨dictSet
              [("campaigns", .arr
                 [.obj [("campaign_id", .str "c1"), ("daily_spend", .num 10)],
                  .obj [("campaign_id", .str "c2"), ("daily_spend", .num 50),
                        ("owner", .str "ana")]]),
               ("week", .num 47)] "campaigns"
              (.arr [.obj [("campaign_id", .str "c1"), ("daily_spend", .num 10)],
                     .obj (dictSet [("campaign_id", .str "c2"), ("daily_spend", .num 50),
                            ("owner", .str "ana")] "daily_spend"
                        (.num (round2 (50 * (1 + (-(2/10)))))))])⟩,
           .obj [("ok", .bool true), ("campaign_id", .str "c2"),
                 ("old_spend", (dictGet [("campaign_id", JValue.str "c2"),
                    ("daily_spend", JValue.num 50),
                    ("owner", JValue.str "ana")] "daily_spend").getD (.num 0)),
                 ("new_spend", .num (round2 (50 * (1 + (-(2/10))))))])) :=
  ⟨(adjust_budget_atomic_frame.2.1
      ⟨[("campaigns", .arr [.obj [("campaign_id", .str "c1"), ("daily_spend", .num 10)]]),
        ("week", .num 47)]⟩ "zzz" (-(2/10))
      [.obj [("campaign_id", .str "c1"), ("daily_spend", .num 10)]]
      rfl (by decide) (by decide)),
   ((adjust_budget_atomic_frame.2.2
      ⟨[("campaigns", .arr
          [.obj [("campaign_id", .str "c1"), ("daily_spend", .num 10)],
           .obj [("campaign_id", .str "c2"), ("daily_spend", .num 50),
                 ("owner", .str "ana")]]),
        ("week", .num 47)]⟩ "c2" (-(2/10))
      [.obj [("campaign_id", .str "c1"), ("daily_spend", .num 10)]] []
      [("campaign_id", .str "c2"), ("daily_spend", .num 50), ("owner", .str "ana")] 50
      rfl (by decide) (by decide) (by decide) rfl).1)⟩

/-- `task_api.TaskAPI`: the task store, mapping task id to the stored
payload dict. -/
structure TaskAPI where
  tasks : List (String × List (String × JValue))

/-- `TaskAPI.reassign`: if the id is present, set that payload's
`assignee` and report the new assignee; otherwise report `not_found`.
Total — no path raises.  (The source's parameter `to` is a Lean keyword,
hence `to_`.) -/
def TaskAPI.reassign (api : TaskAPI) (task_id to_ : String) : TaskAPI × JValue :=
  match dictGet api.tasks task_id with
  | some payload =>
    ({ tasks := dictSet api.tasks task_id (dictSet payload "assignee" (.str to_)) },
     .obj [("ok", .bool true), ("task_id", .str task_id), ("new_assignee", .str to_)])
  | none =>
    (api, .obj [("ok", .bool false), ("reason", .str "not_found")])

/-- C10: `TaskAPI.reassign` preserves the store except for the targeted
assignment: an absent id returns `ok: False, reason: "not_found"` with the
store unchanged; a present id changes only that task's `assignee` binding
(to the given value), leaving its other fields and all other tasks
unchanged. -/
theorem reassign_frame :
    (∀ (api : TaskAPI) (tid to_ : String),
       dictGet api.tasks tid = none →
       api.reassign tid to_ =
         (api, .obj [("ok", .bool false), ("reason", .str "not_found")])) ∧
    (∀ (api : TaskAPI) (tid to_ : String) (payload : List (String × JValue)),
       dictGet api.tasks tid = some payload →
       (api.reassign tid to_).2 =
         .obj [("ok", .bool true), ("task_id", .str tid), ("new_assignee", .str to_)] ∧
       dictGet (api.reassign tid to_).1.tasks tid =
         some (dictSet payload "assignee" (.str to_)) ∧
       (∀ tid2, tid2 ≠ tid →
         dictGet (api.reassign tid to_).1.tasks tid2 = dictGet api.tasks tid2) ∧
       dictGet (dictSet payload "assignee" (.str to_)) "assignee" = some (.str to_) ∧
       (∀ k, k ≠ "assignee" →
         dictGet (dictSet payload "assignee" (.str to_)) k = dictGet payload k)) := by
  constructor
  · intro api tid to_ hnone
    rw [TaskAPI.reassign, hnone]
  · intro api tid to_ payload hsome
    have hre : api.reassign tid to_ =
        ({ tasks := dictSet api.tasks tid (dictSet payload "assignee" (.str to_)) },
         .obj [("ok", .bool true), ("task_id", .str tid), ("new_assignee", .str to_)]) := by
      rw [TaskAPI.reassign, hsome]
    rw [hre]
    exact ⟨rfl, dictGet_dictSet_same _ _ _,
      fun tid2 h2 => dictGet_dictSet_other _ _ _ _ h2,
      dictGet_dictSet_same _ _ _,
      fun k hk => dictGet_dictSet_other _ _ _ _ hk⟩

/-- Witness for C10 at a concrete two-task store and a missing id. -/
theorem reassign_frame_witness :
    (TaskAPI.reassign ⟨[("t1", [("task", .str "alpha"), ("assignee", .str "ann")]),
        ("t2", [("task", .str "beta"), ("assignee", .str "bob")])]⟩ "t9" "carl" =
      (⟨[("t1", [("task", .str "alpha"), ("assignee", .str "ann")]),
         ("t2", [("task", .str "beta"), ("assignee", .str "bob")])]⟩,
       .obj [("ok", .bool false), ("reason", .str "not_found")])) ∧
    dictGet (TaskAPI.reassign ⟨[("t1", [("task", .str "alpha"), ("assignee", .str "ann")]),
        ("t2", [("task", .str "beta"), ("assignee", .str "bob")])]⟩ "t2" "carl").1.tasks
      "t2" = some (dictSet [("task", .str "beta"), ("assignee", .str "bob")]
        "assignee" (.str "carl")) :=
  ⟨(reassign_frame.1 ⟨[("t1", [("task", .str "alpha"), ("assignee", .str "ann")]),
      ("t2", [("task", .str "beta"), ("assignee", .str "bob")])]⟩ "t9" "carl" rfl),
   ((reassign_frame.2 ⟨[("t1", [("task", .str "alpha"), ("assignee", .str "ann")]),
      ("t2", [("task", .str "beta"), ("assignee", .str "bob")])]⟩ "t2" "carl"
      [("task", .str "beta"), ("assignee", .str "bob")] rfl).2.1)⟩

/-- Python `str.strip()` whitespace class (ASCII part). -/
def isWsPy (c : Char) : Bool :=
  c = ' ' || c = '\t' || c = '\n' || c = '\r' || c = '\x0b' || c = '\x0c'

/-- Trim Python whitespace from both ends of a character list. -/
def trimWs (l : List Char) : List Char :=
  ((l.dropWhile isWsPy).reverse.dropWhile isWsPy).reverse

/-- Python `s.strip()`. -/
def pyStrip (s : String) : String := String.mk (trimWs s.data)

/-- `d.get(k)` as the Python value: `None` when absent (a stored JSON
`null` is indistinguishable from a missing key through `.get`). -/
def pyGet (d : List (String × JValue)) (k : String) : JValue :=
  (dictGet d k).getD .null

/-- `d.get(k, default)`: the default applies only when the key is absent. -/
def pyGetD (d : List (String × JValue)) (k : String) (dflt : JValue) : JValue :=
  (dictGet d k).getD dflt

/-- Python `a or b`: `a` when truthy, else `b`. -/
def pyOr (a b : JValue) : JValue := if jTruthy a then a else b

/-- `k in d and d.get(k)` — membership plus truthiness of the value. -/
def truthyMem (d : List (String × JValue)) (k : String) : Bool :=
  match dictGet d k with
  | some v => jTruthy v
  | none => false

mutual

/-- Python `repr` of a JSON-shaped value (string quoting is naive — no value
in this development contains a quote character). -/
def pyRepr : JValue → String
  | .null => "None"
  | .bool true => "True"
  | .bool false => "False"
  | .num q => pyNumRepr q
  | .str s => "'" ++ s ++ "'"
  | .arr xs => "[" ++ pyReprArr xs ++ "]"
  | .obj kvs => "\x7b" ++ pyReprObj kvs ++ "\x7d"

/-- Comma-joined element reprs. -/
def pyReprArr : List JValue → String
  | [] => ""
  | [x] => pyRepr x
  | x :: y :: xs => pyRepr x ++ ", " ++ pyReprArr (y :: xs)

/-- Comma-joined member reprs. -/
def pyReprObj : List (String × JValue) → String
  | [] => ""
  | [(k, v)] => "'" ++ k ++ "': " ++ pyRepr v
  | (k, v) :: m :: kvs => "'" ++ k ++ "': " ++ pyRepr v ++ ", " ++ pyReprObj (m :: kvs)

end

/-- Python `str(x)`: strings verbatim, every other value via `repr`. -/
def pyStr : JValue → String
  | .str s => s
  | v => pyRepr v

/-- Digits value of a decimal digit list. -/
def digitsVal (ds : List Char) : ℕ :=
  ds.foldl (fun acc c => acc * 10 + (c.toNat - 48)) 0

/-- Take the longest ASCII-digit run. -/
def takeDigitsPy : List Char → List Char × List Char
  | [] => ([], [])
  | c :: cs =>
    if c.isDigit then
      let (ds, r) := takeDigitsPy cs
      (c :: ds, r)
    else ([], c :: cs)

/-- Python `float(s)` on a string: strips whitespace, then parses
`[sign] digits [. digits] [e [sign] digits]` — at least one digit overall.
Digit-group underscores and the `inf`/`nan` words (which produce values
outside this rational model) are not modelled; no claim exercises them. -/
def parseFloatStr (s : String) : Except String ℚ :=
  let t := trimWs s.data
  let (neg, t1) : Bool × List Char :=
    match t with
    | '-' :: r => (true, r)
    | '+' :: r => (false, r)
    | _ => (false, t)
  let (intDs, t2) := takeDigitsPy t1
  let (fracDs, t3) :=
    match t2 with
    | '.' :: r => takeDigitsPy r
    | _ => ([], t2)
  if intDs.isEmpty && fracDs.isEmpty then
    .error "ValueError: could not convert string to float"
  else
    match t3 with
    | [] =>
      let mant : ℚ := ((digitsVal (intDs ++ fracDs) : ℤ) : ℚ) / ((10 : ℚ) ^ fracDs.length)
      .ok (if neg then -mant else mant)
    | e :: r =>
      if e = 'e' || e = 'E' then
        let (eneg, r1) : Bool × List Char :=
          match r with
          | '-' :: r2 => (true, r2)
          | '+' :: r2 => (false, r2)
          | _ => (false, r)
        let (expDs, r2) := takeDigitsPy r1
        if expDs.isEmpty || !r2.isEmpty then
          .error "ValueError: could not convert string to float"
        else
          let mant : ℚ := ((digitsVal (intDs ++ fracDs) : ℤ) : ℚ) / ((10 : ℚ) ^ fracDs.length)
          let ex : ℤ := if eneg then -(digitsVal expDs : ℤ) else (digitsVal expDs : ℤ)
          .ok ((if neg then -mant else mant) * (10 : ℚ) ^ ex)
      else .error "ValueError: could not convert string to float"

/-- Python `float(x)`: numbers pass through, bools are 1/0, strings parse,
everything else is a `TypeError`. -/
def pyFloat (v : JValue) : Except String ℚ :=
  match v with
  | .num q => .ok q
  | .bool b => .ok (if b then 1 else 0)
  | .str s => parseFloatStr s
  | .null => .error "TypeError: float() argument must be a string or a real number"
  | .arr _ => .error "TypeError: float() argument must be a string or a real number"
  | .obj _ => .error "TypeError: float() argument must be a string or a real number"

/-- Python `x[:n]` inside `_map_action`'s dead reason-slice line: slicing a
non-sequence raises. -/
def pySlice (v : JValue) (n : ℕ) : Except String JValue :=
  match v with
  | .str s => .ok (.str (strTake n s))
  | .arr xs => .ok (.arr (xs.take n))
  | _ => .error "TypeError: value is not subscriptable"

/-- The synonym table `type_map` of `_map_action`. -/
def type_map : List (String × String) :=
  [("move_card", "create_task"), ("assign_member", "reassign_task"),
   ("add_comment", "create_task"), ("create_card", "create_task"),
   ("set_due_date", "create_task"), ("adjust_budget", "adjust_budget"),
   ("reassign_task", "reassign_task"), ("create_task", "create_task"),
   ("draft_email", "draft_email"), ("schedule_post", "schedule_post"),
   ("pause_campaign", "pause_campaign"), ("run_analysis", "run_analysis"),
   ("investigation", "create_task"), ("analysis", "create_task"),
   ("audit", "create_task"), ("communication", "draft_email")]

/-- `set(type_map.values())` as a list (membership is what matters). -/
def typeMapValues : List String := type_map.map Prod.snd

/-- The canonical action-type set: the distinct values of `type_map`. -/
def canonicalActionTypes : List String :=
  ["create_task", "reassign_task", "adjust_budget", "draft_email",
   "schedule_post", "pause_campaign", "run_analysis"]

/-- The reserved top-level keys excluded from the details merge. -/
def reservedKeys : List String :=
  ["action_type", "type", "action", "reason", "expected_impact", "preconditions",
   "rollback_plan", "confidence", "estimated_time_hours", "summary", "task"]

/-- `raw_type` resolution of `_map_action`: the `or`-chain over
`action_type`/`type`/`action`, made a string unless it ended as `None`. -/
def rawTypeOf (d : List (String × JValue)) : Option String :=
  match pyOr (pyGet d "action_type") (pyOr (pyGet d "type") (pyGet d "action")) with
  | .null => none
  | v => some (pyStr v)

/-- The resolved canonical `action_type` of `_map_action`'s dict branch. -/
def actionTypeOf (d : List (String × JValue)) : String :=
  match rawTypeOf d with
  | none => "create_task"
  | some rt =>
    if rt = "" then "create_task"
    else
      match dictGet type_map rt with
      | some t => t
      | none => if rt ∈ typeMapValues then rt else "create_task"

/-- The merged `details` dict of `_map_action`: start from a copied nested
`details` dict, overlay every non-reserved top-level key (insertion order),
then flatten one further nested `details` level, namespacing collisions
with `_inner_`. -/
def mergedDetails (d : List (String × JValue)) : List (String × JValue) :=
  let details0 : List (String × JValue) :=
    match dictGet d "details" with
    | some (.obj dd) => dd
    | _ => []
  let details1 := List.foldl
    (fun acc kv =>
      if kv.1 ∈ reservedKeys ∨ kv.1 = "details" then acc else dictSet acc kv.1 kv.2)
    details0 d
  match dictGet details1 "details" with
  | some (.obj inner) =>
    List.foldl
      (fun acc kv =>
        if dictHas acc kv.1 then dictSet acc ("_inner_" ++ kv.1) kv.2
        else dictSet acc kv.1 kv.2)
      (dictPop details1 "details") inner
  | _ => details1

/-- The `reason` `or`-chain of `_map_action`'s dict branch. -/
def reasonOf (d : List (String × JValue)) : JValue :=
  pyOr (pyGet d "reason") (pyOr (pyGet d "summary")
    (pyOr (pyGet d "title") (pyOr (pyGet d "action") .null)))

/-- One iteration of the convenience-key mirroring loop: copy
`details[top_k]` to the top level when present and not `None`. -/
def convStep (details : List (String × JValue)) (acc : List (String × JValue))
    (k : String) : List (String × JValue) :=
  match dictGet details k with
  | some .null => acc
  | some v => dictSet acc k v
  | none => acc

/-- The fixed tuple of convenience keys mirrored to the top level. -/
def convKeys : List String :=
  ["campaign_id", "adjustment", "assignee", "to", "subject", "body", "due_date",
   "member_id"]

/-- The confidence resolution of `_map_action`'s dict branch:
`float(raw.get("confidence"))` when present (which may raise), else `0.5`. -/
def confRes (d : List (String × JValue)) : Except String ℚ :=
  match pyGet d "confidence" with
  | .null => .ok (5/10 : ℚ)
  | v => pyFloat v

/-- The `norm` literal of `_map_action`'s dict branch, before any of the
later key assignments. -/
def normBase (d : List (String × JValue)) (confidence : ℚ) : List (String × JValue) :=
  [("action_type", .str (actionTypeOf d)),
   ("details", .obj []),
   ("reason", reasonOf d),
   ("expected_impact", pyGet d "expected_impact"),
   ("preconditions", pyGetD d "preconditions" (.arr [])),
   ("rollback_plan", pyGet d "rollback_plan"),
   ("confidence", .num confidence),
   ("estimated_time_hours", pyGetD d "estimated_time_hours" (.num 0))]

/-- The three `task`/`task_id` mirror statements of `_map_action`. -/
def taskMirrors (d details2 norm : List (String × JValue)) : List (String × JValue) :=
  let n1 := if truthyMem d "task" then dictSet norm "task" (pyGet d "task") else norm
  let n2 := if truthyMem d "task_id" then dictSet n1 "task_id" (pyGet d "task_id") else n1
  if !(dictHas n2 "task") && dictHas details2 "task" then
    dictSet n2 "task" (pyGetD details2 "task" .null)
  else n2

/-- The `not details and raw_action.get("action")` guard of the prose-action
branch. -/
def bumpCond (d : List (String × JValue)) : Bool :=
  (mergedDetails d).isEmpty && jTruthy (pyGet d "action")

/-- `details["task"] = raw_action.get("action")` inside the prose-action
branch. -/
def bumpDetails (d details2 : List (String × JValue)) : List (String × JValue) :=
  if bumpCond d then dictSet details2 "task" (pyGet d "action") else details2

/-- The confidence bump of the prose-action branch:
`max(norm["confidence"], 0.6)` when the raw confidence is falsy. -/
def bumpConfidence (d : List (String × JValue)) (conf : ℚ)
    (norm : List (String × JValue)) : List (String × JValue) :=
  if bumpCond d && !jTruthy (pyGet d "confidence") then
    dictSet norm "confidence" (.num (max conf (6/10)))
  else norm

/-- The `if not norm["reason"]` slice line of the prose-action branch.  (As
proved in `reasonPatch_eq`, its guard can never fire: a truthy `action`
value makes the `reason` chain truthy.) -/
def reasonPatch (d : List (String × JValue)) (norm : List (String × JValue)) :
    Except String (List (String × JValue)) :=
  if bumpCond d && !jTruthy (reasonOf d) then do
    let sliced ← pySlice (pyGet d "action") 200
    pure (dictSet norm "reason" sliced)
  else pure norm

/-- The final `member_id -> assignee` mapping. -/
def memberIdPatch (details3 norm : List (String × JValue)) : List (String × JValue) :=
  if dictHas details3 "member_id" && !(dictHas norm "assignee") then
    dictSet norm "assignee" (pyGetD details3 "member_id" .null)
  else norm

/-- The dict branch of `_map_action` (the raw action is a dict `d`),
composed from the stages above in source order.  The only raising
operations are `float(confidence)` and the unreachable prose-reason
slice. -/
def mapActionDict (d : List (String × JValue)) :
    Except String (List (String × JValue)) := do
  let confidence ← confRes d
  let details2 := mergedDetails d
  let norm3 := taskMirrors d details2 (normBase d confidence)
  let details3 := bumpDetails d details2
  let norm4a := bumpConfidence d confidence norm3
  let norm4 ← reasonPatch d norm4a
  let norm5 := dictSet norm4 "details" (.obj details3)
  let norm6 := List.foldl (convStep details3) norm5 convKeys
  return memberIdPatch details3 norm6

/-- `strategy_agent._map_action`: normalise a raw model action of any
JSON shape into the canonical Rook action dict.  String, list and other
non-dict inputs take the fixed conversion branches; dict inputs go through
`mapActionDict`.  `.error` marks a raised exception. -/
def _map_action (raw : JValue) : Except String (List (String × JValue)) :=
  match raw with
  | .str s =>
    let summary := pyStrip s
    .ok [("action_type", .str "create_task"),
         ("task", .str (strTake 512 summary)),
         ("details", .obj [("task", .str summary)]),
         ("reason", .str "Converted from string action"),
         ("confidence", .num (6/10)),
         ("expected_impact", .null),
         ("preconditions", .arr []),
         ("rollback_plan", .null),
         ("estimated_time_hours", .num 0)]
  | .arr items =>
    let parts := items.map (fun item =>
      match item with
      | .str s2 => pyStrip s2
      | .obj dd => pyStr (pyOr (pyGet dd "action")
          (pyOr (pyGet dd "title") (.str (jsonDumps (.obj dd)))))
      | other => pyStr other)
    let combined := strTake 800 (String.intercalate " | " (parts.filter (· ≠ "")))
    .ok [("action_type", .str "create_task"),
         ("task", .str combined),
         ("details", .obj [("task", .str combined),
                           ("items", .arr (parts.map JValue.str))]),
         ("reason", .str "Converted from list of actions"),
         ("confidence", .num (6/10)),
         ("expected_impact", .null),
         ("preconditions", .arr []),
         ("rollback_plan", .null),
         ("estimated_time_hours", .num 0)]
  | .obj d => mapActionDict d
  | other =>
    .ok [("action_type", .str "create_task"),
         ("task", .str (strTake 512 (pyStr other))),
         ("details", .obj [("task", .str (pyStr other))]),
         ("reason", .str "Converted fallback action"),
         ("confidence", .num (5/10))]

theorem jTruthy_pyOr (a b : JValue) : jTruthy (pyOr a b) = (jTruthy a || jTruthy b) := by
  rw [pyOr]
  cases h : jTruthy a <;> simp [h]

theorem reasonPatch_eq (d norm : List (String × JValue)) : reasonPatch d norm = .ok norm := by
  rw [reasonPatch]
  have hfalse : (bumpCond d && !jTruthy (reasonOf d)) = false := by
    cases ha : jTruthy (pyGet d "action") with
    | false => simp [bumpCond, ha]
    | true =>
      have hr : jTruthy (reasonOf d) = true := by
        simp [reasonOf, jTruthy_pyOr, ha]
      simp [hr]
  rw [hfalse]
  rfl

theorem dictGet_taskMirrors (d details2 norm : List (String × JValue)) (t : String)
    (h1 : t ≠ "task") (h2 : t ≠ "task_id") :
    dictGet (taskMirrors d details2 norm) t = dictGet norm t := by
  rw [taskMirrors]
  split_ifs <;>
    simp only [dictGet_dictSet_other _ _ _ _ h1, dictGet_dictSet_other _ _ _ _ h2]

theorem dictGet_bumpConfidence (d : List (String × JValue)) (conf : ℚ)
    (norm : List (String × JValue)) (t : String) (h : t ≠ "confidence") :
    dictGet (bumpConfidence d conf norm) t = dictGet norm t := by
  rw [bumpConfidence]
  split_ifs <;> simp only [dictGet_dictSet_other _ _ _ _ h]

theorem dictGet_memberIdPatch (details3 norm : List (String × JValue)) (t : String)
    (h : t ≠ "assignee") :
    dictGet (memberIdPatch details3 norm) t = dictGet norm t := by
  rw [memberIdPatch]
  split_ifs <;> simp only [dictGet_dictSet_other _ _ _ _ h]

theorem dictGet_convStep (det acc : List (String × JValue)) (k t : String)
    (h : k ≠ t) :
    dictGet (convStep det acc k) t = dictGet acc t := by
  rw [convStep]
  have h2 : t ≠ k := fun e => h e.symm
  split <;> first
    | rfl
    | rw [dictGet_dictSet_other _ _ _ _ h2]

theorem dictGet_foldl_convStep (det : List (String × JValue)) (t : String) :
    ∀ (keys : List String) (acc : List (String × JValue)),
      (∀ k ∈ keys, k ≠ t) →
      dictGet (List.foldl (convStep det) acc keys) t = dictGet acc t := by
  intro keys
  induction keys with
  | nil => intro acc _; rfl
  | cons k rest ih =>
    intro acc hk
    rw [List.foldl_cons, ih _ (fun x hx => hk x (List.mem_cons_of_mem _ hx)),
      dictGet_convStep _ _ _ _ (hk k (List.mem_cons_self _ _))]

theorem mapActionDict_fields (d : List (String × JValue)) (conf : ℚ)
    (hconf : confRes d = .ok conf) :
    ∃ act, mapActionDict d = .ok act ∧
      dictGet act "action_type" = some (.str (actionTypeOf d)) ∧
      dictGet act "confidence" =
        some (.num (if bumpCond d && !jTruthy (pyGet d "confidence") then
          max conf (6/10) else conf)) := by
  refine ⟨memberIdPatch (bumpDetails d (mergedDetails d))
      (List.foldl (convStep (bumpDetails d (mergedDetails d)))
        (dictSet (bumpConfidence d conf (taskMirrors d (mergedDetails d) (normBase d conf)))
          "details" (.obj (bumpDetails d (mergedDetails d)))) convKeys), ?_, ?_, ?_⟩
  · rw [mapActionDict]
    simp only [hconf, reasonPatch_eq, bind, pure]
    rfl
  · rw [dictGet_memberIdPatch _ _ _ (by decide),
      dictGet_foldl_convStep _ _ convKeys _ (by decide),
      dictGet_dictSet_other _ _ _ _ (by decide),
      dictGet_bumpConfidence _ _ _ _ (by decide),
      dictGet_taskMirrors _ _ _ _ (by decide) (by decide)]
    rfl
  · rw [dictGet_memberIdPatch _ _ _ (by decide),
      dictGet_foldl_convStep _ _ convKeys _ (by decide),
      dictGet_dictSet_other _ _ _ _ (by decide),
      bumpConfidence]
    split_ifs with hb
    · rw [dictGet_dictSet_same]
    · rw [dictGet_taskMirrors _ _ _ _ (by decide) (by decide)]
      rfl

theorem dictGet_mem {α : Type} (d : List (String × α)) (k : String) (v : α)
    (h : dictGet d k = some v) : (k, v) ∈ d := by
  induction d with
  | nil => exact Option.noConfusion h
  | cons kv rest ih =>
    obtain ⟨k', v'⟩ := kv
    rw [dictGet] at h
    by_cases hk : k' = k
    · rw [if_pos hk] at h
      injection h with h2
      subst hk
      subst h2
      exact List.mem_cons_self _ _
    · rw [if_neg hk] at h
      exact List.mem_cons_of_mem _ (ih h)

theorem typeMap_value_canonical (rt t : String) (h : dictGet type_map rt = some t) :
    t ∈ canonicalActionTypes := by
  have hmem := dictGet_mem type_map rt t h
  have hall : ∀ kv ∈ type_map, kv.2 ∈ canonicalActionTypes := by decide
  exact hall _ hmem

theorem mem_typeMapValues_canonical (rt : String) (h : rt ∈ typeMapValues) :
    rt ∈ canonicalActionTypes := by
  have h2 : rt ∈ ["create_task", "reassign_task", "create_task", "create_task",
    "create_task", "adjust_budget", "reassign_task", "create_task", "draft_email",
    "schedule_post", "pause_campaign", "run_analysis", "create_task", "create_task",
    "create_task", "draft_email"] := h
  fin_cases h2 <;> decide

theorem actionTypeOf_canonical (d : List (String × JValue)) :
    actionTypeOf d ∈ canonicalActionTypes := by
  rw [actionTypeOf]
  cases hrt : rawTypeOf d with
  | none => decide
  | some rt =>
    dsimp only
    by_cases he : rt = ""
    · rw [if_pos he]
      decide
    · rw [if_neg he]
      cases hm : dictGet type_map rt with
      | some t =>
        simp only [hm]
        exact typeMap_value_canonical rt t hm
      | none =>
        simp only [hm]
        by_cases hv : rt ∈ typeMapValues
        · rw [if_pos hv]
          exact mem_typeMapValues_canonical rt hv
        · rw [if_neg hv]
          decide

/-- Look a key up in the action produced by a successful `_map_action` run. -/
def okGet (e : Except String (List (String × JValue))) (k : String) : Option JValue :=
  match e with
  | .ok a => dictGet a k
  | .error _ => none

/-- C1 counterexample: the normalizer is not total and does not keep
confidence in `[0,1]` with a 0.5 default.  A non-numeric string confidence
raises `ValueError` (so `normalize` can throw); a numeric confidence of `2`
is passed through unclamped, outside `[0,1]`; and a prose-action dict with
no confidence field gets 0.6, not the claimed 0.5 default. -/
theorem map_action_claim_cex :
    _map_action (.obj [("confidence", .str "high")]) =
      .error "ValueError: could not convert string to float" ∧
    okGet (_map_action (.obj [("confidence", .num 2)])) "confidence" = some (.num 2) ∧
    ¬((2 : ℚ) ≤ 1) ∧
    (∃ q : ℚ, okGet (_map_action (.obj [("action", .str "do x")])) "confidence" =
      some (.num q) ∧ q = 6/10 ∧ q ≠ 5/10) :=
  ⟨rfl, rfl, by norm_num, ⟨_, rfl, by norm_num, by norm_num⟩⟩

/-- C1 amended: (1) for every non-dict input `normalize` succeeds with
`action_type = "create_task"` and confidence in `[0,1]`; (2) the resolved
action type of a dict input is always in the canonical set; (3) a dict whose
confidence field is missing (or `None`) succeeds with confidence 0.5 —
bumped to 0.6 when the prose-action branch fires (empty merged details and a
truthy `action` field); (4) a present numeric confidence `q ≠ 0` is passed
through as `float(q)` unclamped.  A present non-numeric confidence raises
(see the counterexample). -/
theorem map_action_amended :
    (∀ v : JValue, isObjVal v = false →
       ∃ act, _map_action v = .ok act ∧
         dictGet act "action_type" = some (.str "create_task") ∧
         ∃ q : ℚ, dictGet act "confidence" = some (.num q) ∧ 0 ≤ q ∧ q ≤ 1) ∧
    (∀ d : List (String × JValue), actionTypeOf d ∈ canonicalActionTypes) ∧
    (∀ d : List (String × JValue), pyGet d "confidence" = .null →
       ∃ act, _map_action (.obj d) = .ok act ∧
         dictGet act "action_type" = some (.str (actionTypeOf d)) ∧
         dictGet act "confidence" =
           some (.num (if bumpCond d then (6/10 : ℚ) else (5/10 : ℚ)))) ∧
    (∀ (d : List (String × JValue)) (q : ℚ),
       pyGet d "confidence" = .num q → q ≠ 0 →
       ∃ act, _map_action (.obj d) = .ok act ∧
         dictGet act "action_type" = some (.str (actionTypeOf d)) ∧
         dictGet act "confidence" = some (.num q)) := by
  refine ⟨?_, actionTypeOf_canonical, ?_, ?_⟩
  · intro v hv
    cases v with
    | str s => exact ⟨_, rfl, rfl, 6/10, rfl, by norm_num, by norm_num⟩
    | arr xs => exact ⟨_, rfl, rfl, 6/10, rfl, by norm_num, by norm_num⟩
    | null => exact ⟨_, rfl, rfl, 5/10, rfl, by norm_num, by norm_num⟩
    | bool b => exact ⟨_, rfl, rfl, 5/10, rfl, by norm_num, by norm_num⟩
    | num q => exact ⟨_, rfl, rfl, 5/10, rfl, by norm_num, by norm_num⟩
    | obj kvs => simp [isObjVal] at hv
  · intro d h0
    have hc : confRes d = .ok (5/10) := by rw [confRes, h0]
    obtain ⟨act, hrun, hat, hcf⟩ := mapActionDict_fields d (5/10) hc
    refine ⟨act, hrun, hat, ?_⟩
    rw [hcf, h0]
    have hmax : max (5/10 : ℚ) (6/10) = 6/10 := by
      rw [max_eq_right]
      norm_num
    cases hb : bumpCond d <;> simp [jTruthy, hb, hmax]
  · intro d q h0 hq
    have hc : confRes d = .ok q := by
      rw [confRes, h0]
      rfl
    obtain ⟨act, hrun, hat, hcf⟩ := mapActionDict_fields d q hc
    refine ⟨act, hrun, hat, ?_⟩
    rw [hcf, h0]
    simp [jTruthy, hq]

/-- Witness for the amended C1: a plain string action, a dict with no
confidence field, and a dict with numeric confidence 0.7. -/
theorem map_action_amended_witness :
    (∃ act, _map_action (.str "fix ads") = .ok act ∧
       dictGet act "action_type" = some (.str "create_task") ∧
       ∃ q : ℚ, dictGet act "confidence" = some (.num q) ∧ 0 ≤ q ∧ q ≤ 1) ∧
    (∃ act, _map_action (.obj [("action_type", .str "pause_campaign")]) = .ok act ∧
       dictGet act "action_type" =
         some (.str (actionTypeOf [("action_type", .str "pause_campaign")])) ∧
       dictGet act "confidence" =
         some (.num (if bumpCond [("action_type", .str "pause_campaign")] then
           (6/10 : ℚ) else (5/10 : ℚ)))) ∧
    (∃ act, _map_action (.obj [("confidence", .num (7/10))]) = .ok act ∧
       dictGet act "action_type" =
         some (.str (actionTypeOf [("confidence", .num (7/10))])) ∧
       dictGet act "confidence" = some (.num (7/10))) :=
  ⟨map_action_amended.1 (.str "fix ads") rfl,
   map_action_amended.2.2.1 [("action_type", .str "pause_campaign")] rfl,
   map_action_amended.2.2.2 [("confidence", .num (7/10))] (7/10) rfl (by norm_num)⟩

/-- The whitespace characters `json.loads` skips between tokens. -/
def jsonWs (c : Char) : Bool := c = ' ' || c = '\t' || c = '\n' || c = '\r'

/-- Skip inter-token JSON whitespace. -/
def jskipWs : List Char → List Char
  | c :: cs => if jsonWs c then jskipWs cs else c :: cs
  | [] => []

/-- Longest ASCII digit run, reused by the number grammar. -/
def jdigits : List Char → List Char × List Char
  | c :: cs =>
    if c.isDigit then
      let (ds, r) := jdigits cs
      (c :: ds, r)
    else ([], c :: cs)
  | [] => ([], [])

/-- One escape character after a backslash, per the JSON grammar. -/
def junescape (c : Char) : Option Char :=
  if c = '"' then some '"'
  else if c = '\\' then some '\\'
  else if c = '/' then some '/'
  else if c = 'n' then some '\n'
  else if c = 't' then some '\t'
  else if c = 'r' then some '\r'
  else if c = 'b' then some (Char.ofNat 8)
  else if c = 'f' then some (Char.ofNat 12)
  else none

/-- One hex digit's value. -/
def jhexVal (c : Char) : Option ℕ :=
  if '0' ≤ c && c ≤ '9' then some (c.toNat - 48)
  else if 'a' ≤ c && c ≤ 'f' then some (c.toNat - 97 + 10)
  else if 'A' ≤ c && c ≤ 'F' then some (c.toNat - 65 + 10)
  else none

/-- String body after the opening quote.  Strict mode as in `json.loads`:
raw control characters below 0x20 are rejected; `\uXXXX` escapes become the
code point directly (surrogate pairing is not modelled — no claim text
contains one). -/
def jstring (acc : List Char) : List Char → Option (String × List Char)
  | [] => none
  | '"' :: rest => some (String.mk acc.reverse, rest)
  | '\\' :: 'u' :: a :: b :: c :: d :: rest =>
    match jhexVal a, jhexVal b, jhexVal c, jhexVal d with
    | some va, some vb, some vc, some vd =>
      jstring (Char.ofNat (((va * 16 + vb) * 16 + vc) * 16 + vd) :: acc) rest
    | _, _, _, _ => none
  | '\\' :: e :: rest =>
    match junescape e with
    | some ch => jstring (ch :: acc) rest
    | none => none
  | c :: rest => if c.toNat < 32 then none else jstring (c :: acc) rest

/-- JSON number at the head of the input: `-? int frac? exp?` with the
leading-zero rule of the grammar (`json.loads` accepts `NaN`/`Infinity`
extensions, which have no rational value and are not modelled; no claim
exercises them). -/
def jnumber (l : List Char) : Option (ℚ × List Char) :=
  let (neg, l1) : Bool × List Char :=
    match l with
    | '-' :: r => (true, r)
    | _ => (false, l)
  let (intDs, l2) := jdigits l1
  if intDs.isEmpty then none
  else if intDs.length > 1 && intDs.headD '0' = '0' then none
  else
    let (fracDs, l3) : List Char × List Char :=
      match l2 with
      | '.' :: r => jdigits r
      | _ => ([], l2)
    if l2 ≠ l3 && fracDs.isEmpty then none
    else
      let (expVal, l4) : Option ℤ × List Char :=
        match l3 with
        | 'e' :: r | 'E' :: r =>
          let (esign, r1) : ℤ × List Char :=
            match r with
            | '+' :: r2 => (1, r2)
            | '-' :: r2 => (-1, r2)
            | _ => (1, r)
          let (eds, r2) := jdigits r1
          if eds.isEmpty then (none, l3) else (some (esign * (digitsVal eds : ℤ)), r2)
        | _ => (some 0, l3)
      match expVal with
      | none => none
      | some ex =>
        let mant : ℚ := ((digitsVal (intDs ++ fracDs) : ℤ) : ℚ) *
          (10 : ℚ) ^ (ex - (fracDs.length : ℤ))
        some (if neg then -mant else mant, l4)

mutual

/-- One JSON value at the head of the input (whitespace already skipped by
the caller), recursing on `fuel`. -/
def jval : ℕ → List Char → Option (JValue × List Char)
  | 0, _ => none
  | fuel + 1, l =>
    match l with
    | 'n' :: 'u' :: 'l' :: 'l' :: r => some (.null, r)
    | 't' :: 'r' :: 'u' :: 'e' :: r => some (.bool true, r)
    | 'f' :: 'a' :: 'l' :: 's' :: 'e' :: r => some (.bool false, r)
    | '"' :: r =>
      match jstring [] r with
      | some (s, r2) => some (.str s, r2)
      | none => none
    | '[' :: r =>
      match jskipWs r with
      | ']' :: r2 => some (.arr [], r2)
      | r2 =>
        match jelems fuel r2 with
        | some (xs, r3) => some (.arr xs, r3)
        | none => none
    | '\x7b' :: r =>
      match jskipWs r with
      | '\x7d' :: r2 => some (.obj [], r2)
      | r2 =>
        match jmembers fuel r2 with
        | some (kvs, r3) => some (.obj kvs, r3)
        | none => none
    | c :: _ =>
      if c = '-' || c.isDigit then
        match jnumber l with
        | some (q, r2) => some (.num q, r2)
        | none => none
      else none
    | [] => none

/-- One-or-more comma-separated array elements up to the closing bracket. -/
def jelems : ℕ → List Char → Option (List JValue × List Char)
  | 0, _ => none
  | fuel + 1, l =>
    match jval fuel l with
    | none => none
    | some (v, r) =>
      match jskipWs r with
      | ',' :: r2 =>
        match jelems fuel (jskipWs r2) with
        | some (vs, r3) => some (v :: vs, r3)
        | none => none
      | ']' :: r2 => some ([v], r2)
      | _ => none

/-- One-or-more comma-separated object members up to the closing brace.
Duplicate keys resolve as in Python: the later value wins, the first
position is kept (via `dictSet` in `jsonLoadsL`). -/
def jmembers : ℕ → List Char → Option (List (String × JValue) × List Char)
  | 0, _ => none
  | fuel + 1, l =>
    match l with
    | '"' :: r =>
      match jstring [] r with
      | none => none
      | some (key, r1) =>
        match jskipWs r1 with
        | ':' :: r2 =>
          match jval fuel (jskipWs r2) with
          | none => none
          | some (v, r3) =>
            match jskipWs r3 with
            | ',' :: r4 =>
              match jmembers fuel (jskipWs r4) with
              | some (kvs, r5) => some ((key, v) :: kvs, r5)
              | none => none
            | '\x7d' :: r4 => some ([(key, v)], r4)
            | _ => none
        | _ => none
    | _ => none

end

/-- Fold parsed members into a Python dict (later duplicate keys overwrite
in place). -/
def jdedup (kvs : List (String × JValue)) : List (String × JValue) :=
  List.foldl (fun acc kv => dictSet acc kv.1 kv.2) [] kvs

mutual

/-- Apply Python dict semantics to every object in a parsed tree. -/
def jpy : JValue → JValue
  | .obj kvs => .obj (jdedup (jpyObj kvs))
  | .arr xs => .arr (jpyArr xs)
  | v => v

/-- `jpy` over array elements. -/
def jpyArr : List JValue → List JValue
  | [] => []
  | x :: xs => jpy x :: jpyArr xs

/-- `jpy` over object members. -/
def jpyObj : List (String × JValue) → List (String × JValue)
  | [] => []
  | (k, v) :: kvs => (k, jpy v) :: jpyObj kvs

end

/-- `json.loads` on a character list: one value, surrounding whitespace,
nothing else. -/
def jsonLoadsL (l : List Char) : Option JValue :=
  match jval (2 * l.length + 2) (jskipWs l) with
  | some (v, rest) => if (jskipWs rest).isEmpty then some (jpy v) else none
  | none => none

/-- `json.loads` on a string. -/
def jsonLoads (s : String) : Option JValue := jsonLoadsL s.data

/-- The three-backtick fence marker. -/
def bt3 : List Char := ['`', '`', '`']

/-- The three-tilde fence marker. -/
def tld3 : List Char := ['~', '~', '~']

/-- Length of the `(?:json)?\s*` tail a fence-marker match consumes after
the backticks (case-insensitive tag, then a whitespace run). -/
def fenceTagLen (l : List Char) : ℕ :=
  if (l.take 4).map Char.toLower = "json".data then
    4 + ((l.drop 4).takeWhile isWsPy).length
  else (l.takeWhile isWsPy).length

/-- `re.sub(r"```(?:json)?\s*", "", text, flags=IGNORECASE)`: delete every
(leftmost, non-overlapping) fence marker together with its tag and trailing
whitespace.  Recursion is fuelled to stay kernel-reducible; a fuel of
`length + 1` always suffices and fuel 0 returns the input unchanged. -/
def stripFenceMarks : ℕ → List Char → List Char
  | 0, l => l
  | _ + 1, [] => []
  | fuel + 1, c :: rest =>
    if seqStartsWith (c :: rest) bt3 then
      stripFenceMarks fuel ((rest.drop 2).drop (fenceTagLen (rest.drop 2)))
    else c :: stripFenceMarks fuel rest

/-- `re.sub(r"\s*```", "", text, flags=IGNORECASE)`: delete every
whitespace run that is immediately followed by a fence marker, together
with the marker.  Fuelled like `stripFenceMarks`; fuel 0 returns the
input unchanged. -/
def stripWsFence : ℕ → List Char → List Char
  | 0, l => l
  | _ + 1, [] => []
  | fuel + 1, c :: rest =>
    if seqStartsWith ((c :: rest).drop ((c :: rest).takeWhile isWsPy).length) bt3 then
      stripWsFence fuel ((c :: rest).drop (((c :: rest).takeWhile isWsPy).length + 3))
    else c :: stripWsFence fuel rest

/-- First index at which `pat` occurs, if any. -/
def findSeq (pat : List Char) : List Char → Option ℕ
  | [] => if pat.isEmpty then some 0 else none
  | l@(_ :: rest) =>
    if seqStartsWith l pat then some 0
    else (findSeq pat rest).map (· + 1)

/-- Index of the first element satisfying the test. -/
def firstIdxWhere (p : Char → Bool) : List Char → Option ℕ
  | [] => none
  | c :: rest => if p c then some 0 else (firstIdxWhere p rest).map (· + 1)

/-- Index of the last occurrence of a character. -/
def lastIdxOf (c : Char) (l : List Char) : Option ℕ :=
  match firstIdxWhere (fun x => x = c) l.reverse with
  | some i => some (l.length - 1 - i)
  | none => none

/-- The span a greedy `\x7b(?:.|\s)*\x7d`-style regex matches: from the
first opening character that precedes the last closing character, to that
last closing character. -/
def greedySpan (openC closeC : Char) (l : List Char) : Option (ℕ × ℕ) :=
  match firstIdxWhere (fun x => x = openC) l, lastIdxOf closeC l with
  | some i, some j => if i < j then some (i, j) else none
  | _, _ => none

/-- The inclusive slice `l[i..j]`. -/
def sliceRange (l : List Char) (i j : ℕ) : List Char := (l.drop i).take (j - i + 1)

/-- Consume `\s*` then the closing character, for the trailing-comma strip. -/
def wsThenClose (closeC : Char) : List Char → Option (List Char)
  | [] => none
  | c :: rest =>
    if c = closeC then some rest
    else if isWsPy c then wsThenClose closeC rest
    else none

/-- `re.sub(",\s*" + close, close, s)`: replace every (leftmost,
non-overlapping) comma followed by whitespace and the closing character by
the closing character alone.  Fuelled like the fence scanners. -/
def stripCommaClose (closeC : Char) : ℕ → List Char → List Char
  | 0, l => l
  | _ + 1, [] => []
  | fuel + 1, c :: rest =>
    if c = ',' then
      match wsThenClose closeC rest with
      | some rest2 => closeC :: stripCommaClose closeC fuel rest2
      | none => c :: stripCommaClose closeC fuel rest
    else c :: stripCommaClose closeC fuel rest

/-- The depth-counting scan from a `\x7b`: accumulate until the brace depth
returns to zero, yielding the balanced slice. -/
def balancedSlice : List Char → ℕ → List Char → Option (List Char)
  | [], _, _ => none
  | c :: rest, depth, acc =>
    if c = '\x7b' then balancedSlice rest (depth + 1) (c :: acc)
    else if c = '\x7d' then
      if depth = 1 then some ((c :: acc).reverse)
      else balancedSlice rest (depth - 1) (c :: acc)
    else balancedSlice rest depth (c :: acc)

/-- `candidate = obj_match if obj_match.start() < arr_match.start() else
arr_match` (with `True` tagging the object span): the earlier-starting span
wins, the object span on a tie or when the array span is absent. -/
def pickSpan (objSpan arrSpan : Option (ℕ × ℕ)) : Option (ℕ × ℕ × Bool) :=
  match objSpan, arrSpan with
  | some (i1, j1), some (i2, j2) =>
    if i1 < i2 then some (i1, j1, true) else some (i2, j2, false)
  | some (i1, j1), none => some (i1, j1, true)
  | none, some (i2, j2) => some (i2, j2, false)
  | none, none => none

/-- `llm_client.extract_json_from_text` on a character list: strip fence
markers, pick the greedy first-to-last object (or array) span, strip
trailing commas, parse; only when no such span exists at all, fall back to
a depth-counted brace scan. -/
def extract_json_from_text_l (t : List Char) : Option JValue :=
  if t.isEmpty then none
  else
    let clean := stripWsFence (t.length + 1) (stripFenceMarks (t.length + 1) t)
    match pickSpan (greedySpan '\x7b' '\x7d' clean) (greedySpan '[' ']' clean) with
    | some (i, j, _) =>
      let snippet := sliceRange clean i j
      let snippet2 := stripCommaClose ']' (snippet.length + 1)
        (stripCommaClose '\x7d' (snippet.length + 1) snippet)
      jsonLoadsL snippet2
    | none =>
      match firstIdxWhere (fun x => x = '\x7b') clean with
      | none => none
      | some start =>
        match balancedSlice (clean.drop start) 0 [] with
        | some snip => jsonLoadsL (stripCommaClose '\x7d' (snip.length + 1) snip)
        | none => none

/-- `llm_client.extract_json_from_text` on a string. -/
def extract_json_from_text (s : String) : Option JValue := extract_json_from_text_l s.data

/-- Extract the lazy capture of a ```-style fence pair: the text between
the first fence marker (with its optional case-insensitive `json` tag) and
the next fence marker. -/
def fenceInner (fence : List Char) (l : List Char) : Option (List Char) :=
  match findSeq fence l with
  | none => none
  | some i =>
    let rest := l.drop (i + 3)
    let rest2 := if (rest.take 4).map Char.toLower = "json".data then rest.drop 4 else rest
    match findSeq fence rest2 with
    | none => none
    | some j => some (rest2.take j)

/-- Strip backticks from both ends, as `s.strip("`")`. -/
def stripTicks (l : List Char) : List Char :=
  ((l.dropWhile (fun c => c = '`')).reverse.dropWhile (fun c => c = '`')).reverse

/-- The first `` `inline code` `` span: leftmost backtick with a non-empty
backtick-free body and a closing backtick. -/
def inlineCode : List Char → Option (List Char)
  | [] => none
  | c :: rest =>
    if c = '`' then
      let content := rest.takeWhile (fun x => x ≠ '`')
      if content.isEmpty then inlineCode rest
      else if (rest.drop content.length).isEmpty then none
      else some content
    else inlineCode rest

/-- `strategy_agent._strip_code_fence` on a character list: strip the text,
then try in order a backtick fence pair, a tilde fence pair, a
backtick-delimited whole string, an inline code span, else return the
stripped text. -/
def _strip_code_fence_l (t : List Char) : List Char :=
  if t.isEmpty then t
  else
    let s := trimWs t
    match fenceInner bt3 s with
    | some inner => trimWs inner
    | none =>
      match fenceInner tld3 s with
      | some inner => trimWs inner
      | none =>
        if seqStartsWith s bt3 && seqStartsWith s.reverse bt3 then
          trimWs (stripTicks s)
        else
          match inlineCode s with
          | some content => trimWs content
          | none => s

/-- `strategy_agent._strip_code_fence` on a string. -/
def _strip_code_fence (s : String) : String := String.mk (_strip_code_fence_l s.data)

/-- The greedy last-resort `(\x7b[\s\S]*\x7d)` attempt of `_extract_json`. -/
def greedyLastResort (l : List Char) : Option JValue :=
  match greedySpan '\x7b' '\x7d' l with
  | some (i, j) => jsonLoadsL (sliceRange l i j)
  | none => none

/-- `strategy_agent._extract_json` on a character list: strip fences, try a
direct parse, then the first depth-counted balanced `\x7b...\x7d` block
(falling through to the greedy regex when that block fails to parse), with
no trailing-comma stripping anywhere. -/
def _extract_json_l (t : List Char) : Option JValue :=
  if t.isEmpty then none
  else
    let cleaned := _strip_code_fence_l t
    match jsonLoadsL cleaned with
    | some v => some v
    | none =>
      match firstIdxWhere (fun x => x = '\x7b') cleaned with
      | none => none
      | some start =>
        match balancedSlice (cleaned.drop start) 0 [] with
        | some candidate =>
          match jsonLoadsL candidate with
          | some v => some v
          | none => greedyLastResort cleaned
        | none => greedyLastResort cleaned

/-- `strategy_agent._extract_json` on a string. -/
def _extract_json (s : String) : Option JValue := _extract_json_l s.data

/-- The default `sys_inst` of `call_llm_structured`. -/
def default_sys_inst : String :=
  "You are an assistant used by an automated agent. Follow these rules EXACTLY:\n" ++
  "1) Return ONLY ONE valid compact JSON object and NOTHING ELSE (no markdown, no explanation, no backticks).\n" ++
  "2) The JSON MUST follow this schema exactly:\n" ++
  "\x7b\"actions\":[\x7b\"action_type\":\"<action>\",\"details\":\x7b...\x7d,\"reason\":\"<short>\",\"confidence\":0.0\x7d],\"summary\":\"<short>\"\x7d\n" ++
  "3) Limit actions to at most 4. Keep all strings short (<=120 chars). Use numeric confidence 0.0-1.0.\n" ++
  "4) If you cannot propose actions, return \x7b\"actions\":[],\"summary\":\"no_action\"\x7d.\n" ++
  "5) Do NOT include any other fields or surrounding text.\n" ++
  "EXAMPLE_OUTPUT: \x7b\"actions\":[\x7b\"action_type\":\"refresh_creatives\",\"details\":\x7b\"campaign_id\":\"SpringSale\",\"notes\":\"test 3 variants\"\x7d,\"reason\":\"low CTR\",\"confidence\":0.8\x7d],\"summary\":\"Refresh creatives and test.\"\x7d\n"

/-- The `prompt_string` of `call_llm_structured`: the system instruction,
the fixed schema instructions, and the scenario framed by the board
markers. -/
def structured_prompt (sysInst scenario : String) : String :=
  sysInst ++ "\n\n" ++
  "INSTRUCTIONS (must be followed exactly):\n" ++
  "1) RETURN ONLY ONE VALID JSON object and NOTHING ELSE.\n" ++
  "2) Top-level keys MUST be: \"actions\" (array) and \"summary\" (string).\n" ++
  "3) Limit actions to at most 4 objects.\n" ++
  "4) Each action must be: \x7b \"action_type\": \"<one-of-list>\", \"details\": \x7b...\x7d, \"reason\": \"<short>\", \"confidence\": 0.0-1.0 \x7d.\n" ++
  "5) Keep all strings short (<= 120 chars). If uncertain, use confidence 0.4-0.5.\n" ++
  "6) If no actions, return \x7b\"actions\": [], \"summary\": \"no_action\"\x7d.\n\n" ++
  "SCENARIO:\n" ++
  "===BOARD_START===\n" ++
  scenario ++ "\n" ++
  "===BOARD_END===\n\n" ++
  "Return only the compact JSON object as the output."

/-- The stage-3 repair prompt: extract the JSON object from the verbatim
earlier output. -/
def repair_prompt_of (textual : String) : String :=
  "Extract and return ONLY the valid JSON object found in the text between TEXT_START and TEXT_END.\n" ++
  "If no JSON is present, return \x7b\"actions\": [], \"summary\": \"no_action\"\x7d.\n\n" ++
  "TEXT_START\n" ++ textual ++ "\nTEXT_END\n"

/-- The stage-4 regeneration prompt (`%d`/`%s` interpolation applied). -/
def regen_prompt_of (repairMaxTokens : ℕ) (scenario : String) : String :=
  "You did not provide valid JSON earlier. Based on the SCENARIO below, " ++
  "RE-GENERATE ONLY the compact JSON object that matches the schema exactly.\n\n" ++
  "REQUIRED_SCHEMA: \x7b\"actions\":[\x7b\"action_type\":\"<action>\",\"details\":\x7b...\x7d,\"reason\":\"<short>\",\"confidence\":0.0\x7d],\"summary\":\"<short>\"\x7d\n" ++
  "Return only the JSON and nothing else. Use up to " ++ toString repairMaxTokens ++
  " tokens.\n\n" ++
  "SCENARIO:\n" ++ scenario ++ "\n\nEXAMPLE_OUTPUT: \x7b\"actions\":[\x7b\"action_type\":\"refresh_creatives\",\"details\":\x7b\"campaign_id\":\"SpringSale\",\"notes\":\"test 3 variants\"\x7d,\"reason\":\"low CTR\",\"confidence\":0.8\x7d],\"summary\":\"Refresh creatives and test.\"\x7d\n"

/-- The sentinel parsed value `call_llm_structured` returns when every
recovery stage fails. -/
def parseFailedSentinel : JValue :=
  .obj [("actions", .arr []), ("summary", .str "parse_failed")]

/-- Execution trace of one `call_llm_structured` run: the parsed value and
the textual outputs of the primary, repair and regeneration calls (absent
when the earlier stage already succeeded).  The `_repair_attempt` entries
the source stores on the raw dict are diagnostic snippets of these same
texts. -/
structure StructuredTrace where
  parsed : JValue
  primaryText : String
  repairText : Option String
  regenText : Option String
deriving Repr

/-- `llm_client.call_llm_structured`: build the schema prompt, invoke the
retry orchestrator, and run the ladder — extraction on the primary text,
extraction on a repair call's text, extraction on a regeneration call's
text, else the `parse_failed` sentinel.  `b1`/`b2`/`b3` are the backend
oracles seen by the three `call_llm` invocations (each such call constructs
its own pool; the random starting cursor is the shared parameter `idx0`).
The textual content of each result is its normalised `text`, as
`get_text_from_sdk_resp` produces. -/
def call_llm_structured (scenario : String) (system_instruction : Option String)
    (model : String) (keys : List String) (useSdk : Bool) (singleKey : Option String)
    (idx0 maxRetries repairMaxTokens : ℕ)
    (b1 b2 b3 : ℕ → String → Except String String) : StructuredTrace :=
  let sysI := system_instruction.getD default_sys_inst
  let prompt := structured_prompt sysI scenario
  let r1 := call_llm prompt model keys useSdk singleKey idx0 maxRetries b1
  let t1 := r1.result.text
  match extract_json_from_text t1 with
  | some p => { parsed := p, primaryText := t1, repairText := none, regenText := none }
  | none =>
    let r2 := call_llm (repair_prompt_of t1) model keys useSdk singleKey idx0 maxRetries b2
    let t2 := r2.result.text
    match extract_json_from_text t2 with
    | some p => { parsed := p, primaryText := t1, repairText := some t2, regenText := none }
    | none =>
      let r3 := call_llm (regen_prompt_of repairMaxTokens scenario) model keys useSdk
        singleKey idx0 maxRetries b3
      let t3 := r3.result.text
      match extract_json_from_text t3 with
      | some p =>
        { parsed := p, primaryText := t1, repairText := some t2, regenText := some t3 }
      | none =>
        { parsed := parseFailedSentinel, primaryText := t1, repairText := some t2,
          regenText := some t3 }

/-- The primary call's textual output inside `call_llm_structured`. -/
def structuredText1 (scenario : String) (system_instruction : Option String)
    (model : String) (keys : List String) (useSdk : Bool) (singleKey : Option String)
    (idx0 maxRetries : ℕ) (b1 : ℕ → String → Except String String) : String :=
  (call_llm (structured_prompt (system_instruction.getD default_sys_inst) scenario)
    model keys useSdk singleKey idx0 maxRetries b1).result.text

/-- The repair call's textual output inside `call_llm_structured`, given
the primary text it quotes. -/
def structuredText2 (model : String) (keys : List String) (useSdk : Bool)
    (singleKey : Option String) (idx0 maxRetries : ℕ)
    (b2 : ℕ → String → Except String String) (t1 : String) : String :=
  (call_llm (repair_prompt_of t1) model keys useSdk singleKey idx0 maxRetries b2).result.text

/-- The regeneration call's textual output inside `call_llm_structured`. -/
def structuredText3 (scenario model : String) (keys : List String) (useSdk : Bool)
    (singleKey : Option String) (idx0 maxRetries repairMaxTokens : ℕ)
    (b3 : ℕ → String → Except String String) : String :=
  (call_llm (regen_prompt_of repairMaxTokens scenario) model keys useSdk singleKey
    idx0 maxRetries b3).result.text

/-- C3: `call_llm_structured` is total and, whenever extraction fails on
the primary text, on the repair call's text and on the regeneration call's
text, it returns exactly the sentinel
`\x7b"actions": [], "summary": "parse_failed"\x7d`. -/
theorem structured_parse_failed_sentinel
    (scenario : String) (system_instruction : Option String) (model : String)
    (keys : List String) (useSdk : Bool) (singleKey : Option String)
    (idx0 maxRetries repairMaxTokens : ℕ)
    (b1 b2 b3 : ℕ → String → Except String String)
    (h1 : extract_json_from_text
      (structuredText1 scenario system_instruction model keys useSdk singleKey
        idx0 maxRetries b1) = none)
    (h2 : extract_json_from_text
      (structuredText2 model keys useSdk singleKey idx0 maxRetries b2
        (structuredText1 scenario system_instruction model keys useSdk singleKey
          idx0 maxRetries b1)) = none)
    (h3 : extract_json_from_text
      (structuredText3 scenario model keys useSdk singleKey idx0 maxRetries
        repairMaxTokens b3) = none) :
    (call_llm_structured scenario system_instruction model keys useSdk singleKey
      idx0 maxRetries repairMaxTokens b1 b2 b3).parsed = parseFailedSentinel := by
  simp only [structuredText1, structuredText2, structuredText3] at h1 h2 h3
  rw [call_llm_structured]
  simp only [h1, h2, h3]

/-- Witness for C3: a backend that always answers in brace-free prose; all
three extraction stages fail and the sentinel is returned. -/
theorem structured_parse_failed_sentinel_witness :
    (call_llm_structured "board scenario" none "m" ["k"] false none 0 4 200
      (fun _ _ => .ok "prose only, attempt one")
      (fun _ _ => .ok "still prose, no object")
      (fun _ _ => .ok "final prose answer")).parsed = parseFailedSentinel :=
  structured_parse_failed_sentinel "board scenario" none "m" ["k"] false none 0 4 200
    (fun _ _ => .ok "prose only, attempt one")
    (fun _ _ => .ok "still prose, no object")
    (fun _ _ => .ok "final prose answer")
    rfl rfl rfl

theorem mem_dropWhile_sub {α : Type} (p : α → Bool) :
    ∀ (l : List α) (x : α), x ∈ l.dropWhile p → x ∈ l := by
  intro l
  induction l with
  | nil => intro x h; exact h
  | cons c t ih =>
    intro x h
    rw [List.dropWhile_cons] at h
    split_ifs at h with hc
    · exact List.mem_cons_of_mem _ (ih x h)
    · exact h

theorem mem_trimWs_sub (l : List Char) (x : Char) (h : x ∈ trimWs l) : x ∈ l := by
  rw [trimWs] at h
  rw [List.mem_reverse] at h
  have h2 := mem_dropWhile_sub _ _ _ h
  rw [List.mem_reverse] at h2
  exact mem_dropWhile_sub _ _ _ h2

theorem seqStartsWith_append_self (pat rest : List Char) :
    seqStartsWith (pat ++ rest) pat = true := by
  induction pat with
  | nil => cases rest <;> rfl
  | cons c t ih => simp [seqStartsWith, ih]

theorem seqStartsWith_head_cons (l : List Char) (c : Char) (pat : List Char)
    (h : seqStartsWith l (c :: pat) = true) : ∃ t, l = c :: t := by
  cases l with
  | nil => exact absurd h (by simp [seqStartsWith])
  | cons x t =>
    rw [seqStartsWith, Bool.and_eq_true, decide_eq_true_eq] at h
    exact ⟨t, by rw [h.1]⟩

theorem findSeq_none (c : Char) (pat : List Char) :
    ∀ l : List Char, c ∉ l → findSeq (c :: pat) l = none := by
  intro l
  induction l with
  | nil => intro _; rfl
  | cons x t ih =>
    intro h
    rw [findSeq]
    have hx : seqStartsWith (x :: t) (c :: pat) = false := by
      cases hs : seqStartsWith (x :: t) (c :: pat) with
      | false => rfl
      | true =>
        obtain ⟨t2, ht2⟩ := seqStartsWith_head_cons _ _ _ hs
        injection ht2 with h1 _
        exact absurd (h1 ▸ List.mem_cons_self x t) h
    rw [hx]
    simp only [Bool.false_eq_true, if_false]
    rw [ih (fun hm => h (List.mem_cons_of_mem _ hm))]
    rfl

theorem findSeq_boundary (pfx rest : List Char) (h : '`' ∉ pfx) :
    findSeq bt3 (pfx ++ bt3 ++ rest) = some pfx.length := by
  induction pfx with
  | nil =>
    rw [List.nil_append, show bt3 ++ rest = '`' :: '`' :: '`' :: rest from rfl, findSeq]
    have h1 : seqStartsWith ('`' :: '`' :: '`' :: rest) bt3 = true :=
      seqStartsWith_append_self bt3 rest
    rw [h1]
    rfl
  | cons x t ih =>
    have hx : x ≠ '`' := fun e => h (e ▸ List.mem_cons_self x t)
    rw [List.cons_append, List.cons_append, findSeq]
    have hs : seqStartsWith (x :: (t ++ bt3 ++ rest)) bt3 = false := by
      cases hs2 : seqStartsWith (x :: (t ++ bt3 ++ rest)) bt3 with
      | false => rfl
      | true =>
        obtain ⟨t2, ht2⟩ := seqStartsWith_head_cons _ _ _ hs2
        injection ht2 with h1 _
        exact absurd h1 hx
    rw [hs]
    simp only [Bool.false_eq_true, if_false]
    rw [ih (fun hm => h (List.mem_cons_of_mem _ hm))]
    rfl

theorem dropWhile_ws_append (a : List Char) (c : Char) (bs : List Char)
    (hc : isWsPy c = false) :
    (a ++ c :: bs).dropWhile isWsPy = a.dropWhile isWsPy ++ c :: bs := by
  induction a with
  | nil => simp [List.dropWhile_cons, hc]
  | cons x t ih =>
    rw [List.cons_append, List.dropWhile_cons, List.dropWhile_cons]
    split_ifs with hx
    · exact ih
    · rw [List.cons_append]

theorem stripFenceMarks_id : ∀ (fuel : ℕ) (l : List Char), '`' ∉ l →
    stripFenceMarks fuel l = l := by
  intro fuel
  induction fuel with
  | zero => intro l _; rfl
  | succ f ih =>
    intro l hl
    cases l with
    | nil => rfl
    | cons c rest =>
      have hc : c ≠ '`' := fun e => hl (e ▸ List.mem_cons_self c rest)
      have hg : seqStartsWith (c :: rest) bt3 = false := by
        cases hs : seqStartsWith (c :: rest) bt3 with
        | false => rfl
        | true =>
          obtain ⟨t2, ht2⟩ := seqStartsWith_head_cons _ _ _ hs
          injection ht2 with h1 _
          exact absurd h1 hc
      rw [stripFenceMarks, hg]
      simp only [Bool.false_eq_true, if_false]
      rw [ih rest (fun hm => hl (List.mem_cons_of_mem _ hm))]

theorem stripWsFence_id : ∀ (fuel : ℕ) (l : List Char), '`' ∉ l →
    stripWsFence fuel l = l := by
  intro fuel
  induction fuel with
  | zero => intro l _; rfl
  | succ f ih =>
    intro l hl
    cases l with
    | nil => rfl
    | cons c rest =>
      have hg : seqStartsWith ((c :: rest).drop ((c :: rest).takeWhile isWsPy).length)
          bt3 = false := by
        cases hs : seqStartsWith ((c :: rest).drop ((c :: rest).takeWhile isWsPy).length)
            bt3 with
        | false => rfl
        | true =>
          obtain ⟨t2, ht2⟩ := seqStartsWith_head_cons _ _ _ hs
          have hmem : '`' ∈ (c :: rest).drop ((c :: rest).takeWhile isWsPy).length := by
            rw [ht2]
            exact List.mem_cons_self _ _
          exact absurd (List.drop_subset _ _ hmem) hl
      rw [stripWsFence, hg]
      simp only [Bool.false_eq_true, if_false]
      rw [ih rest (fun hm => hl (List.mem_cons_of_mem _ hm))]

theorem wsThenClose_none (closeC : Char) :
    ∀ l : List Char, closeC ∉ l → wsThenClose closeC l = none := by
  intro l
  induction l with
  | nil => intro _; rfl
  | cons c rest ih =>
    intro h
    have hc : c ≠ closeC := fun e => h (e ▸ List.mem_cons_self c rest)
    rw [wsThenClose, if_neg hc]
    split_ifs with hw
    · exact ih (fun hm => h (List.mem_cons_of_mem _ hm))
    · rfl

theorem stripCommaClose_id (closeC : Char) : ∀ (fuel : ℕ) (l : List Char),
    closeC ∉ l → stripCommaClose closeC fuel l = l := by
  intro fuel
  induction fuel with
  | zero => intro l _; rfl
  | succ f ih =>
    intro l hl
    cases l with
    | nil => rfl
    | cons c rest =>
      have hrest : closeC ∉ rest := fun hm => hl (List.mem_cons_of_mem _ hm)
      rw [stripCommaClose]
      split_ifs with hc
      · rw [wsThenClose_none closeC rest hrest]
        rw [ih rest hrest]
      · rw [ih rest hrest]

theorem wsThenClose_across (closeC : Char) (hne : closeC ≠ ',') :
    ∀ (a b : List Char), closeC ∉ a → wsThenClose closeC (a ++ ',' :: b) = none := by
  intro a
  induction a with
  | nil =>
    intro b _
    rw [List.nil_append, wsThenClose, if_neg (fun e => hne e.symm)]
    rfl
  | cons c t ih =>
    intro b h
    have hc : c ≠ closeC := fun e => h (e ▸ List.mem_cons_self c t)
    rw [List.cons_append, wsThenClose, if_neg hc]
    split_ifs with hw
    · exact ih b (fun hm => h (List.mem_cons_of_mem _ hm))
    · rfl

theorem wsThenClose_ws_close (closeC : Char) (hcw : isWsPy closeC = false) :
    ∀ ws : List Char, (∀ c ∈ ws, isWsPy c = true) →
      wsThenClose closeC (ws ++ [closeC]) = some [] := by
  intro ws
  induction ws with
  | nil => intro _; simp [wsThenClose]
  | cons w t ih =>
    intro h
    have hw : isWsPy w = true := h w (List.mem_cons_self _ _)
    have hwc : w ≠ closeC := fun e => by rw [e] at hw; rw [hw] at hcw; exact Bool.noConfusion hcw
    rw [List.cons_append, wsThenClose, if_neg hwc, if_pos hw]
    exact ih (fun c hc => h c (List.mem_cons_of_mem _ hc))

theorem stripCommaClose_trailing (closeC : Char) (hne : closeC ≠ ',')
    (hcw : isWsPy closeC = false) (ws : List Char)
    (hws : ∀ c ∈ ws, isWsPy c = true) :
    ∀ (u : List Char) (fuel : ℕ), closeC ∉ u → u.length + 1 ≤ fuel →
      stripCommaClose closeC fuel (u ++ ',' :: (ws ++ [closeC])) = u ++ [closeC] := by
  intro u
  induction u with
  | nil =>
    intro fuel _ hf
    obtain ⟨f, rfl⟩ : ∃ f, fuel = f + 1 := ⟨fuel - 1, by omega⟩
    rw [List.nil_append, stripCommaClose, if_pos rfl,
      wsThenClose_ws_close closeC hcw ws hws]
    cases f <;> rfl
  | cons c t ih =>
    intro fuel hu hf
    obtain ⟨f, rfl⟩ : ∃ f, fuel = f + 1 := ⟨fuel - 1, by omega⟩
    have ht : closeC ∉ t := fun hm => hu (List.mem_cons_of_mem _ hm)
    rw [List.cons_append, stripCommaClose]
    split_ifs with hc
    · rw [show t ++ ',' :: (ws ++ [closeC]) = t ++ ',' :: (ws ++ [closeC]) from rfl,
        wsThenClose_across closeC hne t (ws ++ [closeC]) ht]
      rw [ih f ht (by simp at hf ⊢; omega)]
      rw [hc, List.cons_append]
    · rw [ih f ht (by simp at hf ⊢; omega)]
      rw [List.cons_append]

theorem lastIdxOf_append_last (c : Char) (y : List Char) :
    lastIdxOf c (y ++ [c]) = some y.length := by
  rw [lastIdxOf]
  have hrev : (y ++ [c]).reverse = c :: y.reverse := by
    simp
  rw [hrev, firstIdxWhere, if_pos (by simp)]
  simp


theorem pickSpan_obj_first (j : ℕ) (arrSpan : Option (ℕ × ℕ))
    (h : ∀ i2 j2, arrSpan = some (i2, j2) → 0 < i2) :
    pickSpan (some (0, j)) arrSpan = some (0, j, true) := by
  cases arrSpan with
  | none => rfl
  | some pr =>
    obtain ⟨i2, j2⟩ := pr
    rw [pickSpan, if_pos (h i2 j2 rfl)]

theorem extract_comma_recovery (u2 ws : List Char) (v : JValue)
    (hu : '`' ∉ u2) (hub : '\x7d' ∉ u2) (hor : ']' ∉ u2)
    (hws : ∀ c ∈ ws, isWsPy c = true)
    (hparse : jsonLoadsL ('\x7b' :: (u2 ++ ['\x7d'])) = some v) :
    extract_json_from_text_l ('\x7b' :: u2 ++ ',' :: (ws ++ ['\x7d'])) = some v := by
  set t := '\x7b' :: u2 ++ ',' :: (ws ++ ['\x7d']) with ht_def
  have hgw : '`' ∉ ws := fun hgw => absurd (hws _ hgw) (by decide)
  have hbt : '`' ∉ t := by
    intro hm
    rw [ht_def] at hm
    rcases List.mem_cons.mp hm with h | h
    · exact absurd h (by decide)
    rcases List.mem_append.mp h with h | h
    · exact hu h
    rcases List.mem_cons.mp h with h | h
    · exact absurd h (by decide)
    rcases List.mem_append.mp h with h | h
    · exact hgw h
    · exact absurd (List.mem_singleton.mp h) (by decide)
  have hclean : stripWsFence (t.length + 1) (stripFenceMarks (t.length + 1) t) = t := by
    rw [stripFenceMarks_id _ _ hbt, stripWsFence_id _ _ hbt]
  have hshape : t = ('\x7b' :: u2 ++ ',' :: ws) ++ ['\x7d'] := by
    rw [ht_def]
    simp
  have hlast : lastIdxOf '\x7d' t = some ('\x7b' :: u2 ++ ',' :: ws).length := by
    rw [hshape]
    exact lastIdxOf_append_last _ _
  have hfirst : firstIdxWhere (fun x => x = '\x7b') t = some 0 := by
    rw [ht_def, List.cons_append, firstIdxWhere, if_pos (by simp)]
  have harr_pos : ∀ i2 j2, greedySpan '[' ']' t = some (i2, j2) → 0 < i2 := by
    intro i2 j2 harr
    rw [greedySpan] at harr
    rw [show firstIdxWhere (fun x => x = '[') t =
        (firstIdxWhere (fun x => x = '[') (u2 ++ ',' :: (ws ++ ['\x7d']))).map (· + 1) from ?hfst] at harr
    case hfst =>
      rw [ht_def, List.cons_append, firstIdxWhere, if_neg (by simp)]
    cases hin : firstIdxWhere (fun x => x = '[') (u2 ++ ',' :: (ws ++ ['\x7d'])) with
    | none =>
      rw [hin] at harr
      exact Option.noConfusion harr
    | some k =>
      rw [hin] at harr
      cases hlst : lastIdxOf ']' t with
      | none =>
        rw [hlst] at harr
        exact Option.noConfusion harr
      | some j3 =>
        rw [hlst] at harr
        simp only [Option.map_some'] at harr
        split_ifs at harr with hlt <;>
          first
          | exact Option.noConfusion harr
          | (cases harr <;> omega)
  have hslice : sliceRange t 0 ('\x7b' :: u2 ++ ',' :: ws).length = t := by
    rw [sliceRange, List.drop_zero, Nat.sub_zero, hshape]
    have hlen : (('\x7b' :: u2 ++ ',' :: ws) ++ ['\x7d']).length =
        ('\x7b' :: u2 ++ ',' :: ws).length + 1 := by
      rw [List.length_append, List.length_singleton]
    rw [← hlen, List.take_length]
  have hcomma1 : stripCommaClose '\x7d' (t.length + 1) t = ('\x7b' :: u2) ++ ['\x7d'] := by
    have hnotin : '\x7d' ∉ '\x7b' :: u2 := by
      intro hm
      rcases List.mem_cons.mp hm with h | h
      · exact absurd h (by decide)
      · exact hub h
    have hbound : ('\x7b' :: u2).length + 1 ≤ t.length + 1 := by
      rw [ht_def]
      simp only [List.length_cons, List.length_append]
      omega
    have hmain := stripCommaClose_trailing '\x7d' (by decide) (by decide) ws hws
      ('\x7b' :: u2) (t.length + 1) hnotin hbound
    have hform : t = ('\x7b' :: u2) ++ ',' :: (ws ++ ['\x7d']) := by
      rw [ht_def, List.cons_append]
    rw [hform]
    exact hmain
  have hcomma2 : ∀ fuel, stripCommaClose ']' fuel (('\x7b' :: u2) ++ ['\x7d']) =
      ('\x7b' :: u2) ++ ['\x7d'] := by
    intro fuel
    apply stripCommaClose_id
    intro hm
    rcases List.mem_append.mp hm with h | h
    · rcases List.mem_cons.mp h with h2 | h2
      · exact absurd h2 (by decide)
      · exact hor h2
    · exact absurd (List.mem_singleton.mp h) (by decide)
  have hobj : greedySpan '\x7b' '\x7d' t =
      some (0, ('\x7b' :: u2 ++ ',' :: ws).length) := by
    rw [greedySpan, hfirst, hlast]
    dsimp only
    rw [if_pos (by simp)]
  rw [extract_json_from_text_l, if_neg (by rw [ht_def]; simp), hclean]
  dsimp only
  rw [hobj, pickSpan_obj_first _ _ harr_pos]
  dsimp only
  rw [hslice, hcomma1, hcomma2, List.cons_append]
  exact hparse

theorem dropWhile_fixed_head (p : Char → Bool) (c : Char) (l : List Char)
    (h : (c :: l).dropWhile p = c :: l) : p c = false := by
  by_cases hp : p c = true
  · rw [List.dropWhile_cons, if_pos hp] at h
    have hle : (l.dropWhile p).length ≤ l.length := by
      clear h
      induction l with
      | nil => simp
      | cons x t ih =>
        rw [List.dropWhile_cons]
        split_ifs
        · exact Nat.le_succ_of_le ih
        · simp
    rw [h] at hle
    simp at hle
  · exact Bool.eq_false_iff.mpr hp

theorem trimWs_mid (a b m' m'' : List Char) (c d : Char)
    (hc : isWsPy c = false) (hd : isWsPy d = false)
    (hm : c :: m' = m'' ++ [d]) :
    trimWs (a ++ (c :: m') ++ b) =
      a.dropWhile isWsPy ++ (c :: m') ++ (b.reverse.dropWhile isWsPy).reverse := by
  have h1 : (a ++ (c :: m') ++ b).dropWhile isWsPy
      = a.dropWhile isWsPy ++ (c :: m') ++ b := by
    rw [List.append_assoc, List.cons_append, dropWhile_ws_append a c (m' ++ b) hc,
      ← List.cons_append, ← List.append_assoc]
  have h2 : (a.dropWhile isWsPy ++ (c :: m') ++ b).reverse
      = b.reverse ++ (d :: m''.reverse) ++ (a.dropWhile isWsPy).reverse := by
    rw [hm]
    simp
  have h3 : (b.reverse ++ (d :: m''.reverse) ++ (a.dropWhile isWsPy).reverse).dropWhile
      isWsPy = b.reverse.dropWhile isWsPy ++ (d :: m''.reverse)
        ++ (a.dropWhile isWsPy).reverse := by
    rw [List.append_assoc, List.cons_append,
      dropWhile_ws_append b.reverse d (m''.reverse ++ (a.dropWhile isWsPy).reverse) hd,
      ← List.cons_append, ← List.append_assoc]
  rw [trimWs, h1, h2, h3, hm]
  simp

theorem trimWs_pad_nl (J : List Char) (hne : J ≠ [])
    (hl : J.dropWhile isWsPy = J) (hr : J.reverse.dropWhile isWsPy = J.reverse) :
    trimWs ('\n' :: (J ++ ['\n'])) = J := by
  obtain ⟨jc, J', rfl⟩ : ∃ jc J', J = jc :: J' := by
    cases J with
    | nil => exact absurd rfl hne
    | cons jc J' => exact ⟨jc, J', rfl⟩
  have hjc : isWsPy jc = false := dropWhile_fixed_head _ _ _ hl
  rw [trimWs]
  have hfront : (('\n' : Char) :: (jc :: J' ++ ['\n'])).dropWhile isWsPy
      = jc :: J' ++ ['\n'] := by
    rw [List.dropWhile_cons, if_pos (by decide), List.cons_append,
      List.dropWhile_cons, if_neg (by rw [hjc]; exact Bool.false_ne_true),
      ← List.cons_append]
  rw [hfront]
  have hrev : ((jc :: J' ++ ['\n']) : List Char).reverse
      = '\n' :: (jc :: J').reverse := by simp
  rw [hrev, List.dropWhile_cons, if_pos (by decide), hr, List.reverse_reverse]

theorem seqStartsWith_false_of_not_mem (l : List Char) (c : Char) (p : List Char)
    (h : c ∉ l) : seqStartsWith l (c :: p) = false := by
  cases hs : seqStartsWith l (c :: p) with
  | false => rfl
  | true =>
    obtain ⟨t2, ht2⟩ := seqStartsWith_head_cons _ _ _ hs
    exact absurd (by rw [ht2]; exact List.mem_cons_self c t2) h

theorem fenceInner_none (c : Char) (p : List Char) (l : List Char) (h : c ∉ l) :
    fenceInner (c :: p) l = none := by
  rw [fenceInner, findSeq_none c p l h]

theorem inlineCode_none : ∀ l : List Char, '`' ∉ l → inlineCode l = none := by
  intro l
  induction l with
  | nil => intro _; rfl
  | cons c rest ih =>
    intro h
    rw [inlineCode, if_neg (fun e => h (by rw [← e]; exact List.mem_cons_self c rest))]
    exact ih (fun hm => h (List.mem_cons_of_mem _ hm))

theorem strip_code_fence_plain (t : List Char) (hne : t ≠ [])
    (hbt : '`' ∉ t) (htl : '~' ∉ t) : _strip_code_fence_l t = trimWs t := by
  have hbts : '`' ∉ trimWs t := fun h => hbt (mem_trimWs_sub _ _ h)
  have htls : '~' ∉ trimWs t := fun h => htl (mem_trimWs_sub _ _ h)
  rw [_strip_code_fence_l, if_neg (by simp [hne])]
  dsimp only
  rw [show fenceInner bt3 (trimWs t) = none from
    fenceInner_none '`' ['`', '`'] _ hbts]
  dsimp only
  rw [show fenceInner tld3 (trimWs t) = none from
    fenceInner_none '~' ['~', '~'] _ htls]
  dsimp only
  rw [show seqStartsWith (trimWs t) bt3 = false from
    seqStartsWith_false_of_not_mem _ '`' ['`', '`'] hbts]
  simp only [Bool.false_and, Bool.false_eq_true, if_false]
  rw [inlineCode_none _ hbts]

theorem extract_depthcount (t : List Char) (v : JValue) (start : ℕ) (sp : List Char)
    (hbt : '`' ∉ t) (htl : '~' ∉ t)
    (hfail : jsonLoadsL (trimWs t) = none)
    (hfirst : firstIdxWhere (fun x => x = '\x7b') (trimWs t) = some start)
    (hbal : balancedSlice ((trimWs t).drop start) 0 [] = some sp)
    (hparse : jsonLoadsL sp = some v) :
    _extract_json_l t = some v := by
  have htne : t ≠ [] := by
    intro h
    rw [h] at hfirst
    exact Option.noConfusion hfirst
  rw [_extract_json_l, if_neg (by simp [htne])]
  dsimp only
  rw [strip_code_fence_plain t htne hbt htl, hfail]
  dsimp only
  rw [hfirst]
  dsimp only
  rw [hbal]
  dsimp only
  rw [hparse]

theorem extract_fence_recovery (p1 p2 J : List Char) (v : JValue)
    (hp1 : '`' ∉ p1) (hJ : '`' ∉ J) (hJne : J ≠ [])
    (hJl : J.dropWhile isWsPy = J)
    (hJr : J.reverse.dropWhile isWsPy = J.reverse)
    (hparse : jsonLoadsL J = some v) :
    _extract_json_l (p1 ++ '`' :: '`' :: '`' :: 'j' :: 's' :: 'o' :: 'n' :: '\n' ::
      (J ++ '\n' :: '`' :: '`' :: '`' :: p2)) = some v := by
  set t := p1 ++ '`' :: '`' :: '`' :: 'j' :: 's' :: 'o' :: 'n' :: '\n' ::
    (J ++ '\n' :: '`' :: '`' :: '`' :: p2) with ht_def
  set p1' := p1.dropWhile isWsPy with hp1'_def
  set p2' := (p2.reverse.dropWhile isWsPy).reverse with hp2'_def
  have htne : t ≠ [] := by rw [ht_def]; simp
  have hp1g : '`' ∉ p1' := fun h => hp1 (mem_dropWhile_sub _ _ _ h)
  have hshape : t = p1 ++ ('`' :: '`' :: '`' :: 'j' :: 's' :: 'o' :: 'n' :: '\n' ::
      (J ++ ['\n', '`', '`', '`'])) ++ p2 := by
    rw [ht_def]
    simp
  have hs : trimWs t = p1' ++ ('`' :: '`' :: '`' :: 'j' :: 's' :: 'o' :: 'n' :: '\n' ::
      (J ++ ['\n', '`', '`', '`'])) ++ p2' := by
    rw [hshape]
    exact trimWs_mid p1 p2
      ('`' :: '`' :: 'j' :: 's' :: 'o' :: 'n' :: '\n' :: (J ++ ['\n', '`', '`', '`']))
      ('`' :: '`' :: '`' :: 'j' :: 's' :: 'o' :: 'n' :: '\n' :: (J ++ ['\n', '`', '`']))
      '`' '`' (by decide) (by decide) (by simp)
  have hsh2 : p1' ++ ('`' :: '`' :: '`' :: 'j' :: 's' :: 'o' :: 'n' :: '\n' ::
      (J ++ ['\n', '`', '`', '`'])) ++ p2'
      = (p1' ++ bt3) ++ ('j' :: 's' :: 'o' :: 'n' :: '\n' ::
        (J ++ '\n' :: '`' :: '`' :: '`' :: p2')) := by
    simp [bt3]
  have hfind1 : findSeq bt3 (trimWs t) = some p1'.length := by
    rw [hs, hsh2]
    exact findSeq_boundary p1' _ hp1g
  have hdrop : (trimWs t).drop (p1'.length + 3)
      = 'j' :: 's' :: 'o' :: 'n' :: '\n' :: (J ++ '\n' :: '`' :: '`' :: '`' :: p2') := by
    rw [hs, hsh2, show p1'.length + 3 = (p1' ++ bt3).length from by simp [bt3]]
    exact List.drop_left _ _
  have hpfx2 : '`' ∉ ('\n' :: (J ++ ['\n']) : List Char) := by
    intro hm
    rcases List.mem_cons.mp hm with h | h
    · exact absurd h (by decide)
    rcases List.mem_append.mp h with h | h
    · exact hJ h
    · exact absurd (List.mem_singleton.mp h) (by decide)
  have hfence : fenceInner bt3 (trimWs t) = some ('\n' :: (J ++ ['\n'])) := by
    rw [fenceInner, hfind1]
    dsimp only
    rw [hdrop]
    have htag : ((('j' :: 's' :: 'o' :: 'n' :: '\n' ::
        (J ++ '\n' :: '`' :: '`' :: '`' :: p2')) : List Char).take 4).map Char.toLower
        = "json".data := by
      rw [show (('j' :: 's' :: 'o' :: 'n' :: '\n' ::
        (J ++ '\n' :: '`' :: '`' :: '`' :: p2')) : List Char).take 4
        = (['j', 's', 'o', 'n'] : List Char) from rfl]
      decide
    rw [if_pos htag]
    rw [show (('j' :: 's' :: 'o' :: 'n' :: '\n' ::
        (J ++ '\n' :: '`' :: '`' :: '`' :: p2')) : List Char).drop 4
      = '\n' :: (J ++ '\n' :: '`' :: '`' :: '`' :: p2') from rfl]
    rw [show ('\n' :: (J ++ '\n' :: '`' :: '`' :: '`' :: p2') : List Char)
      = ('\n' :: (J ++ ['\n'])) ++ bt3 ++ p2' from by simp [bt3]]
    rw [findSeq_boundary ('\n' :: (J ++ ['\n'])) p2' hpfx2]
    dsimp only
    rw [show (('\n' :: (J ++ ['\n'])) ++ bt3 ++ p2').take
        ('\n' :: (J ++ ['\n']) : List Char).length = '\n' :: (J ++ ['\n']) from by
      rw [List.append_assoc]
      exact List.take_left _ _]
  have hstrip : _strip_code_fence_l t = J := by
    rw [_strip_code_fence_l, if_neg (by simp [htne])]
    dsimp only
    rw [hfence]
    dsimp only
    exact trimWs_pad_nl J hJne hJl hJr
  rw [_extract_json_l, if_neg (by simp [htne])]
  dsimp only
  rw [hstrip, hparse]

/-- C4 counterexample: the extraction pair does not behave as claimed.
`extract_json_from_text` locates its span with the greedy first-`\x7b`-to-
last-`\x7d` regex, not by depth-counting, so a text holding two objects
yields nothing even though the first balanced block parses (and
`_extract_json`, which does depth-count, recovers it); `_extract_json` has
no trailing-comma stripping, so the text whose only defect is a trailing
comma is recovered by `extract_json_from_text` but not by `_extract_json`;
and fence recovery in `extract_json_from_text` fails as soon as the
surrounding prose holds braces, because the greedy span swallows the prose
brace. -/
theorem extract_json_claim_cex :
    extract_json_from_text "x \x7b\"a\": 1\x7d y \x7b\"b\": 2\x7d z" = none ∧
    (∃ v, _extract_json "x \x7b\"a\": 1\x7d y \x7b\"b\": 2\x7d z" = some v) ∧
    _extract_json "\x7b\"a\": 1,\x7d" = none ∧
    (∃ v, extract_json_from_text "\x7b\"a\": 1,\x7d" = some v) ∧
    extract_json_from_text
      "note \x7bcaveat\x7d applies\n```json\n\x7b\"a\": 1\x7d\n```\nthanks" = none ∧
    (∃ v, _extract_json
      "note \x7bcaveat\x7d applies\n```json\n\x7b\"a\": 1\x7d\n```\nthanks" = some v) :=
  ⟨rfl, ⟨_, rfl⟩, rfl, ⟨_, rfl⟩, rfl, ⟨_, rfl⟩⟩

/-- C4 (amended): string-processing recovery holds with the two stages
swapped between the two extractors.  Fence recovery with leading and
trailing prose holds for `_extract_json` (backtick-free prose and a
trimmed, backtick-free fenced object); trailing-comma stripping before a
closing brace recovers the object in `extract_json_from_text`; and the
first balanced `\x7b...\x7d` block is found by depth-counting brace
characters in `_extract_json` (fence-free text whose trimmed form fails
the direct parse). -/
theorem extract_json_amended
    (p1 p2 J : List Char) (v1 : JValue)
    (hp1 : '`' ∉ p1) (hJ : '`' ∉ J) (hJne : J ≠ [])
    (hJl : J.dropWhile isWsPy = J) (hJr : J.reverse.dropWhile isWsPy = J.reverse)
    (hparse1 : jsonLoadsL J = some v1)
    (u2 ws : List Char) (v2 : JValue)
    (hu : '`' ∉ u2) (hub : '\x7d' ∉ u2) (hor : ']' ∉ u2)
    (hws : ∀ c ∈ ws, isWsPy c = true)
    (hparse2 : jsonLoadsL ('\x7b' :: (u2 ++ ['\x7d'])) = some v2)
    (t : List Char) (v3 : JValue) (start : ℕ) (sp : List Char)
    (hbt : '`' ∉ t) (htl : '~' ∉ t)
    (hfail : jsonLoadsL (trimWs t) = none)
    (hfirst : firstIdxWhere (fun x => x = '\x7b') (trimWs t) = some start)
    (hbal : balancedSlice ((trimWs t).drop start) 0 [] = some sp)
    (hparse3 : jsonLoadsL sp = some v3) :
    _extract_json_l (p1 ++ '`' :: '`' :: '`' :: 'j' :: 's' :: 'o' :: 'n' :: '\n' ::
      (J ++ '\n' :: '`' :: '`' :: '`' :: p2)) = some v1 ∧
    extract_json_from_text_l ('\x7b' :: u2 ++ ',' :: (ws ++ ['\x7d'])) = some v2 ∧
    _extract_json_l t = some v3 :=
  ⟨extract_fence_recovery p1 p2 J v1 hp1 hJ hJne hJl hJr hparse1,
   extract_comma_recovery u2 ws v2 hu hub hor hws hparse2,
   extract_depthcount t v3 start sp hbt htl hfail hfirst hbal hparse3⟩

/-- C4 witness: the three amended recovery statements at concrete inputs —
a fenced object between prose, an object with a trailing comma before its
closing brace, and an object embedded in fence-free prose. -/
theorem extract_json_amended_witness :
    _extract_json_l ("Here: ".data ++ '`' :: '`' :: '`' :: 'j' :: 's' :: 'o' :: 'n' ::
      '\n' :: ("\x7b\"a\":true\x7d".data ++ '\n' :: '`' :: '`' :: '`' :: " done".data))
      = some (.obj [("a", .bool true)]) ∧
    extract_json_from_text_l ('\x7b' :: "\"a\": true".data ++ ',' :: ([' '] ++ ['\x7d']))
      = some (.obj [("a", .bool true)]) ∧
    _extract_json_l "see \x7b\"a\": true\x7d ok".data = some (.obj [("a", .bool true)]) :=
  extract_json_amended "Here: ".data " done".data "\x7b\"a\":true\x7d".data
    (.obj [("a", .bool true)]) (by decide) (by decide) (by decide) rfl rfl rfl
    "\"a\": true".data [' '] (.obj [("a", .bool true)])
    (by decide) (by decide) (by decide) (by decide) rfl
    "see \x7b\"a\": true\x7d ok".data (.obj [("a", .bool true)]) 4
    "\x7b\"a\": true\x7d".data (by decide) (by decide) rfl rfl rfl rfl
